import Mathlib

/-!
# Verification of the Rain4Agri spatial imputation core

A shallow embedding, in Lean 4, of `src/preprocess_and_impute_with_cache.py`
(the spatial imputation pipeline of the Rain4Agri repository), together with
theorems settling the specification claims about it.

Modelling conventions:

* Machine floats are modelled by `ℚ` (exact arithmetic).
* Pandas data frames (`grp` inside `impute_slice`) are modelled as ordered
  association lists: a `Slice` is a list of `(StationID, row)` pairs in index
  order, a row being one `Cell = Option CellVal` per feature column (`none` =
  NaN/missing).  A present cell is either a number (`CellVal.num`) or a
  non-numeric JSON payload the flattener stored as-is (`CellVal.obj`), kept by
  pandas in an object-dtype column: `pd.isna` is false on it, so the neighbor
  scan counts it as a candidate, and the worker's arithmetic on it raises
  `TypeError`.  `grp.at[s, col]` lookup is first-match; theorems that need a
  unique index carry a `Nodup` hypothesis.
* Division by a zero weight sum does **not** raise.  On an all-numeric slice
  the relevant columns are float64 (a column with a missing cell holds NaN),
  `grp.at` returns `numpy.float64` scalars, and `np.float64(0.0)/0` is `nan`
  with only a `RuntimeWarning`; the nan is written back by line 157, the cell
  stays missing, the loop continues, and nothing is logged.  `estimateIDW`
  therefore returns `Option ℚ`, `none` standing for that nan result.  The
  worker's one genuine raising path, `TypeError` from `sum(v*wi ...)` on a
  non-numeric candidate value, is the `Except String` error of `processCell`
  (`numCands` captures "every counted candidate is numeric": Python's
  `str*float`/`dict*float` raise at the first non-numeric operand, before any
  cell is written).
* Python `dict` iteration order is insertion order, so dictionaries whose
  order is observable (`station_info`, JSON objects) are association lists.
* The flattener (source lines 60-97) has no exception handler, so every
  fault in it is fatal and is embedded as an `Except` error: an unparseable
  file (`json.load` raises), a wrapper whose `data` value is a non-list the
  loop cannot iterate (`None`, a number, a bool: `TypeError`) or iterates
  into non-dict items (a non-empty string or object: `.get` raises
  `AttributeError`), and the analogous faults at the item, entry and
  field-group levels.  Empty strings and empty objects iterate to nothing,
  so `{"data": ""}` and `{"data": {}}` contribute no rows and the run
  continues — as do parsed values matching none of the three shapes.
  Python truthiness drives the `item.get('dts') or item.get('data', [])`
  fallback and the `entry.get(grp, {}) or {}` default; both are embedded
  case by case on the JSON value.
* The 3D station distance (`distance_3d`) is a transcendental floating-point
  formula (haversine plus altitude).  Every claim about the neighbor graph
  concerns only the list structure produced from the pairwise distances
  (length, ordering, self-exclusion, tie-breaking), so the builder is
  embedded parametrically in the distance function `dist : String → String → ℚ`.
* Python's `round(d, 4)` is round-half-even on binary floats; it is modelled
  by round-half-up on `ℚ` (`roundTo4`).  The claims touching it depend only on
  monotonicity, which both roundings share.
* `list(exe.map(impute_slice, groups))` on a `ProcessPoolExecutor` collects
  results in input order and re-raises the first (in input order) worker
  exception; its observable semantics is the sequential `Except` traversal
  `runController`.
* The worker's process name interpolated into log lines is a concurrency
  identity with no bearing on any claim and is dropped from `LogEntry`.
-/

/-! ## Imputation parameters (source lines 37-38) -/

def MIN_NEIGHBORS : Nat := 3

def IDW_POWER : Nat := 2

/-! ## JSON values -/

/-- Parsed JSON (`json.load` output).  Numbers are modelled by `ℚ`; object
key order is Python `dict` insertion order. -/
inductive Json where
  | jnum : ℚ → Json
  | jstr : String → Json
  | jbool : Bool → Json
  | jnull : Json
  | jarr : List Json → Json
  | jobj : List (String × Json) → Json

/-- Embeds `d.get(k)` on a JSON object. -/
def objGet (kvs : List (String × Json)) (k : String) : Option Json :=
  (kvs.find? (fun p => p.1 == k)).map (fun p => p.2)

/-! ## Slices, neighbor maps, logs -/

/-- A present (non-NaN) cell value: a number, or a non-numeric raw payload
the flattener stored as-is (source line 92 stores `val` unconditionally), kept
by pandas in an object-dtype column.  `pd.isna` is false on both, so both
count as candidates in the scan; arithmetic on `obj` raises `TypeError`.
A JSON `true`/`false` is a Python `bool`, an `int` subtype, hence numeric. -/
inductive CellVal where
  | num : ℚ → CellVal
  | obj : Json → CellVal

abbrev Cell := Option CellVal

abbrev Row := List Cell

abbrev Slice := List (String × Row)

abbrev NbrMap := List (String × List (String × ℚ))

/-- One imputation log line, `(timestamp, station, feature column)`:
the source writes `f"[{t}][{proc}] {station}/{col} nbr<{MIN_NEIGHBORS}"`. -/
abbrev LogEntry := String × String × Nat

/-- Embeds `neighbors.get(station, [])` (source line 141). -/
def nbGet (nb : NbrMap) (s : String) : List (String × ℚ) :=
  match nb.find? (fun p => p.1 == s) with
  | some p => p.2
  | none => []

/-- The row of station `s` in slice `g`, if `s` is in the index
(`s2 not in grp.index` test, source line 143). -/
def rowOf (g : Slice) (s : String) : Option Row :=
  (g.find? (fun r => r.1 == s)).map (fun r => r.2)

/-- Embeds `grp.at[s, col]` (source lines 139/145): `none` when the station has no
row in the slice or the stored value is NaN. -/
def valAt (g : Slice) (s : String) (c : Nat) : Cell :=
  match rowOf g s with
  | none => none
  | some row => row.getD c none

/-- Embeds `grp.at[station, col] = v` (source line 157): rewrite the cell of every
row labelled `s` (the index is unique in every run the theorems cover).  The
written value is a `Cell`: line 157 writes whatever the division produced,
a number or the silent `nan` (`none`). -/
def setCell (g : Slice) (s : String) (c : Nat) (v : Cell) : Slice :=
  g.map (fun r => if r.1 == s then (r.1, r.2.set c v) else r)

/-- The neighbor scan of source lines 140-149: walk the neighbor list in
stored order, collect `(station, distance)` for neighbors that have a row in
the slice and a non-missing value in column `c`, and stop as soon as
`MIN_NEIGHBORS` candidates have been collected. -/
def scanNbrs (g : Slice) (c : Nat) : List (String × ℚ) → List (String × ℚ) → List (String × ℚ)
  | [], avail => avail
  | (s2, d) :: rest, avail =>
    match rowOf g s2 with
    | none => scanNbrs g c rest avail
    | some row =>
      match row.getD c none with
      | none =>
        if MIN_NEIGHBORS ≤ avail.length then avail else scanNbrs g c rest avail
      | some _ =>
        if MIN_NEIGHBORS ≤ (avail ++ [(s2, d)]).length then avail ++ [(s2, d)]
        else scanNbrs g c rest (avail ++ [(s2, d)])

/-- Embeds `1/(d**IDW_POWER) if d>0 else 0` (source line 156). -/
def idwWeight (d : ℚ) : ℚ := if 0 < d then 1 / d ^ IDW_POWER else 0

/-- The IDW division of source lines 154-157 on numeric candidates
(`(value, distance)` pairs): `sum(v*wi for v,wi in zip(vals, w)) / sum(w)`.
The operands are numpy `float64` scalars (pandas `.at` on a float64 column),
so a zero weight sum does not raise: the numerator is then `0.0` as well
(every product has a zero factor) and `np.float64(0.0)/0` evaluates to `nan`
with only a `RuntimeWarning`; `none` is that nan result. -/
def estimateIDW (cands : List (ℚ × ℚ)) : Option ℚ :=
  let w := cands.map (fun p => idwWeight p.2)
  if w.sum = 0 then none
  else some (((cands.zip w).map (fun q => q.1.1 * q.2)).sum / w.sum)

/-- Embeds `vals = [grp.at[s, col] for s,_ in avail]` (source line 154), re-reading
the just-scanned cells; those cells are non-missing by construction, so the
`getD` default is unreachable in every reachable state. -/
def candsOf (g : Slice) (c : Nat) (avail : List (String × ℚ)) : List (CellVal × ℚ) :=
  avail.map (fun p => ((valAt g p.1 c).getD (CellVal.num 0), p.2))

/-- The numeric reading of a candidate list: `some` of the `(value, distance)`
pairs when every candidate value is a number, `none` when some candidate is a
non-numeric payload — in the source, `sum(v*wi for v,wi in zip(vals, w))`
raises `TypeError` at the first non-numeric `v` (`str * float`, `dict * float`
and `0 + str` all raise), before any cell is written. -/
def numCands : List (CellVal × ℚ) → Option (List (ℚ × ℚ))
  | [] => some []
  | (CellVal.num q, d) :: rest => (numCands rest).map (fun l => (q, d) :: l)
  | (CellVal.obj _, _) :: _ => none

/-- Processing of one `(station, column)` cell (source lines 139-157).  At
quorum, line 157 writes whatever the division produced — an estimate, or the
silent `nan` on a zero weight sum (the cell then stays missing and nothing is
logged); a non-numeric candidate makes the generator raise `TypeError`. -/
def processCell (nb : NbrMap) (t : String) (g : Slice) (s : String) (c : Nat)
    (log : List LogEntry) : Except String (Slice × List LogEntry) :=
  match valAt g s c with
  | some _ => Except.ok (g, log)
  | none =>
    let avail := scanNbrs g c (nbGet nb s) []
    if avail.length < MIN_NEIGHBORS then
      Except.ok (g, log ++ [(t, s, c)])
    else
      match numCands (candsOf g c avail) with
      | none => Except.error "TypeError: unsupported operand type(s) in the IDW sum"
      | some cands => Except.ok (setCell g s c ((estimateIDW cands).map CellVal.num), log)

/-- Embeds `for col in grp.columns` (source line 138), for one station. -/
def processCols (nb : NbrMap) (t : String) (s : String) :
    List Nat → Slice → List LogEntry → Except String (Slice × List LogEntry)
  | [], g, log => Except.ok (g, log)
  | c :: cs, g, log =>
    match processCell nb t g s c log with
    | Except.error e => Except.error e
    | Except.ok r => processCols nb t s cs r.1 r.2

/-- Embeds `for station in grp.index` (source line 137). -/
def imputeStations (nb : NbrMap) (t : String) (ncols : Nat) :
    List String → Slice → List LogEntry → Except String (Slice × List LogEntry)
  | [], g, log => Except.ok (g, log)
  | s :: ss, g, log =>
    match processCols nb t s (List.range ncols) g log with
    | Except.error e => Except.error e
    | Except.ok r => imputeStations nb t ncols ss r.1 r.2

/-- Embeds `impute_slice` (source lines 133-158) for the slice of one timestamp:
iterate the index in order, mutating the slice in place and appending to the
log; `grp.reset_index()` returns the same rows. -/
def imputeSlice (nb : NbrMap) (t : String) (ncols : Nat) (g : Slice) :
    Except String (Slice × List LogEntry) :=
  imputeStations nb t ncols (g.map (fun r => r.1)) g []

/-- The state of the slice after the first `i` stations of the index have
been processed (a prefix of the `impute_slice` loop). -/
def stateBefore (nb : NbrMap) (t : String) (ncols : Nat) (g : Slice) (i : Nat) :
    Except String (Slice × List LogEntry) :=
  imputeStations nb t ncols ((g.map (fun r => r.1)).take i) g []

/-! ## Stable sorting

Python's `list.sort(key=...)` is a stable sort.  Insertion sort placing each
element before the first element it compares `≤` to is stable, and the input
lists here are small, so it is the embedding of `dists.sort(key=lambda x: x[1])`
(source line 126) and of the sorted group keys of `groupby` (source line 170). -/

def insOne (le : α → α → Bool) (x : α) : List α → List α
  | [] => [x]
  | y :: ys => if le x y then x :: y :: ys else y :: insOne le x ys

def insSort (le : α → α → Bool) : List α → List α
  | [] => []
  | x :: xs => insOne le x (insSort le xs)

/-- Embeds `round(d, 4)` (source line 127).  Python rounds half-to-even on binary
floats; on `ℚ` we use Mathlib's `round` (half-up).  The two differ only at
exact ties and share the monotonicity every claim here relies on. -/
def roundTo4 (q : ℚ) : ℚ := (round (q * 10000) : ℤ) / 10000

/-- Embeds `compute_and_cache_neighbors` (source lines 116-131), parametric in the
3D distance `dist` (the transcendental `distance_3d` of lines 117-122):
for each station, pair every other station of the catalog (in catalog order)
with its distance, sort ascending by distance (stable), and store the
neighbor entries with distances rounded to 4 decimals.  The persisted cache
is this same map serialized. -/
def computeNeighbors (sids : List String) (dist : String → String → ℚ) : NbrMap :=
  sids.map (fun sid =>
    (sid, (insSort (fun a b => decide (a.2 ≤ b.2))
            ((sids.filter (fun o => o != sid)).map (fun o => (o, dist sid o)))).map
          (fun p => (p.1, roundTo4 p.2))))

/-! ## The record flattener -/

/-- The placeholder codes of source lines 88-90 (in source order; the Python
tuple lists some values twice at different float precision). -/
def sentinels : List ℚ :=
  [-9.5, -99.5, -99.9, -99.95, -999.5, -9999.5,
   -9.95, -9995, -9.8, -9995, -9.5, -99.7, -99.9]

/-- The fixed feature schema (source lines 41-58), flattened to the
`(group, sub-measurement)` column list in declaration order. -/
def fieldsSchema : List (String × List String) :=
  [("StationPressure", ["Instantaneous"]),
   ("SeaLevelPressure", ["Instantaneous"]),
   ("AirTemperature", ["Instantaneous", "Maximum", "Minimum"]),
   ("DewPointTemperature", ["Instantaneous"]),
   ("RelativeHumidity", ["Instantaneous"]),
   ("WindSpeed", ["TenMinutelyMaximum", "Mean"]),
   ("WindDirection", ["TenMinutelyMaximum", "Mean"]),
   ("PeakGust", ["Direction", "Maximum"]),
   ("Precipitation", ["Accumulation"]),
   ("PrecipitationDuration", ["Total"]),
   ("SunshineDuration", ["Total"]),
   ("GlobalSolarRadiation", ["Accumulation"]),
   ("Visibility", ["Instantaneous"]),
   ("UVIndex", ["Accumulation"]),
   ("TotalCloudAmount", ["Instantaneous"]),
   ("SoilTemperatureAt0cm", ["Instantaneous"]),
   ("SoilTemperatureAt5cm", ["Instantaneous"]),
   ("SoilTemperatureAt10cm", ["Instantaneous"]),
   ("SoilTemperatureAt20cm", ["Instantaneous"]),
   ("SoilTemperatureAt30cm", ["Instantaneous"]),
   ("SoilTemperatureAt50cm", ["Instantaneous"]),
   ("SoilTemperatureAt100cm", ["Instantaneous"])]

def featureCols : List (String × String) :=
  fieldsSchema.flatMap (fun g => g.2.map (fun sub => (g.1, sub)))

/-- One flattened observation row (source lines 81-93): station, `DataTime`
(absent key gives `None`, hence `Option`), and one cell per schema column. -/
structure FlatRow where
  sid : String
  time : Option String
  vals : List Cell

/-- Embeds `grp_data = entry.get(grp, {}) or {}` (source line 83): an absent
key defaults to `{}`; a falsy value (`None`, `False`, `0`, `""`, `[]`, `{}`)
is replaced by `{}` by the `or`; a truthy non-dict value reaches
`grp_data.get(sub)` and raises `AttributeError` — fatal, nothing catches it. -/
def groupData (entry : List (String × Json)) (grp : String) :
    Except String (List (String × Json)) :=
  match objGet entry grp with
  | none => Except.ok []
  | some (Json.jobj gd) => Except.ok gd
  | some Json.jnull => Except.ok []
  | some (Json.jbool false) => Except.ok []
  | some (Json.jbool true) => Except.error "AttributeError: 'bool' object has no attribute 'get'"
  | some (Json.jnum q) =>
    if q = 0 then Except.ok []
    else Except.error "AttributeError: 'float' object has no attribute 'get'"
  | some (Json.jstr s) =>
    if s = "" then Except.ok []
    else Except.error "AttributeError: 'str' object has no attribute 'get'"
  | some (Json.jarr es) =>
    match es with
    | [] => Except.ok []
    | _ :: _ => Except.error "AttributeError: 'list' object has no attribute 'get'"

/-- One cell: `val = grp_data.get(sub)` with the sentinel check of source
lines 87-91.  An absent key or a JSON `null` is Python `None`, a NaN in the
frame; a number matching a sentinel becomes NaN; a bool is an `int` subtype
(numeric, not matching any sentinel); any other value is stored as-is. -/
def cellOf (gd : List (String × Json)) (sub : String) : Cell :=
  match objGet gd sub with
  | none => none
  | some (Json.jnum q) => if q ∈ sentinels then none else some (CellVal.num q)
  | some Json.jnull => none
  | some (Json.jbool b) => some (CellVal.num (if b then 1 else 0))
  | some v => some (CellVal.obj v)

/-- The cells of one entry over the flattened column list (the group loop of
source lines 82-92; `groupData` is pure, so evaluating it per column instead
of per group yields the same cells and surfaces the same first error). -/
def rowCells (kvs : List (String × Json)) :
    List (String × String) → Except String (List Cell)
  | [] => Except.ok []
  | gs :: rest =>
    match groupData kvs gs.1 with
    | Except.error e => Except.error e
    | Except.ok gd =>
      match rowCells kvs rest with
      | Except.error e => Except.error e
      | Except.ok cells => Except.ok (cellOf gd gs.2 :: cells)

/-- One row from one timestamped sub-entry (source lines 81-93).  A non-dict
entry raises `AttributeError` at `entry.get('DataTime')` — fatal. -/
def entryRow (sid : String) (entry : Json) : Except String FlatRow :=
  match entry with
  | Json.jobj kvs =>
    (match rowCells kvs featureCols with
     | Except.error e => Except.error e
     | Except.ok cells =>
       Except.ok ⟨sid,
         (match objGet kvs "DataTime" with
          | some (Json.jstr t) => some t
          | _ => none), cells⟩)
  | _ => Except.error "AttributeError: object has no attribute 'get'"

/-- Embeds the fallback `item.get('data', [])` of source line 79, then
`for entry in dts`: an absent key defaults to `[]`; a list iterates; an empty
string or empty dict iterates to nothing; a non-empty string or dict iterates
into non-dict entries whose `entry.get` raises `AttributeError`; `None`, a
number or a bool is not iterable (`TypeError`).  All raises are fatal. -/
def fallbackData (kvs : List (String × Json)) : Except String (List Json) :=
  match objGet kvs "data" with
  | none => Except.ok []
  | some (Json.jarr es) => Except.ok es
  | some (Json.jstr s) =>
    if s = "" then Except.ok []
    else Except.error "AttributeError: 'str' object has no attribute 'get'"
  | some (Json.jobj []) => Except.ok []
  | some (Json.jobj (_ :: _)) =>
    Except.error "AttributeError: 'str' object has no attribute 'get'"
  | some _ => Except.error "TypeError: object is not iterable"

/-- Embeds `dts = item.get('dts') or item.get('data', [])` (source line 79)
and the iteration over the result.  A truthy `dts` value is used directly: a
non-empty list iterates; a non-empty string or dict iterates into non-dict
entries (fatal `AttributeError` at `entry.get`); a nonzero number or `True`
is not iterable (fatal `TypeError`).  A falsy `dts` value (absent, `None`,
`[]`, `""`, `0`, `False`) falls back to the `data` key.  A non-dict item
raises `AttributeError` at `item.get('dts')` — fatal. -/
def itemEntries (item : Json) : Except String (List Json) :=
  match item with
  | Json.jobj kvs =>
    match objGet kvs "dts" with
    | some (Json.jarr (e :: es)) => Except.ok (e :: es)
    | some (Json.jobj (_ :: _)) =>
      Except.error "AttributeError: 'str' object has no attribute 'get'"
    | some (Json.jstr s) =>
      if s = "" then fallbackData kvs
      else Except.error "AttributeError: 'str' object has no attribute 'get'"
    | some (Json.jnum q) =>
      if q = 0 then fallbackData kvs
      else Except.error "TypeError: 'float' object is not iterable"
    | some (Json.jbool true) => Except.error "TypeError: 'bool' object is not iterable"
    | some (Json.jbool false) => fallbackData kvs
    | some Json.jnull => fallbackData kvs
    | some (Json.jarr []) => fallbackData kvs
    | some (Json.jobj []) => fallbackData kvs
    | none => fallbackData kvs
  | _ => Except.error "AttributeError: object has no attribute 'get'"

/-- Shape detection of source lines 71-77.  A wrapper object with a `data`
key always takes the first branch (`'data' in data`), and `for item in items`
then governs the outcome: a list iterates; an empty string or empty dict
iterates to nothing (the file contributes no rows, the run continues); a
non-empty string or dict iterates into non-dict items whose `item.get('dts')`
raises `AttributeError`; `None`, a number or a bool is not iterable
(`TypeError`) — in both fatal cases the raise happens before any row of the
file is recorded, so it is surfaced here.  Without a `data` key: a bare list
iterates, a dict carrying `StationID` and `dts` wraps itself, and any other
parsed value leaves `items = []` — silently skipped. -/
def shapeItems : Json → Except String (List Json)
  | Json.jobj kvs =>
    (match objGet kvs "data" with
     | some (Json.jarr es) => Except.ok es
     | some (Json.jstr s) =>
       if s = "" then Except.ok []
       else Except.error "AttributeError: 'str' object has no attribute 'get'"
     | some (Json.jobj []) => Except.ok []
     | some (Json.jobj (_ :: _)) =>
       Except.error "AttributeError: 'str' object has no attribute 'get'"
     | some Json.jnull => Except.error "TypeError: 'NoneType' object is not iterable"
     | some (Json.jbool _) => Except.error "TypeError: 'bool' object is not iterable"
     | some (Json.jnum _) => Except.error "TypeError: 'float' object is not iterable"
     | none =>
       if ((objGet kvs "StationID").isSome && (objGet kvs "dts").isSome) then
         Except.ok [Json.jobj kvs]
       else Except.ok [])
  | Json.jarr es => Except.ok es
  | _ => Except.ok []

/-- The rows of one item's entry list, in order (source lines 80-93). -/
def entriesRows (sid : String) : List Json → Except String (List FlatRow)
  | [] => Except.ok []
  | e :: es =>
    match entryRow sid e with
    | Except.error err => Except.error err
    | Except.ok row =>
      match entriesRows sid es with
      | Except.error err => Except.error err
      | Except.ok rows => Except.ok (row :: rows)

/-- The rows of a file's item list, in order (source lines 78-93). -/
def itemsRows (sid : String) : List Json → Except String (List FlatRow)
  | [] => Except.ok []
  | it :: its =>
    match itemEntries it with
    | Except.error err => Except.error err
    | Except.ok es =>
      match entriesRows sid es with
      | Except.error err => Except.error err
      | Except.ok rows =>
        match itemsRows sid its with
        | Except.error err => Except.error err
        | Except.ok rows2 => Except.ok (rows ++ rows2)

/-- All rows contributed by one parsed file (source lines 71-93). -/
def fileRows (sid : String) (data : Json) : Except String (List FlatRow) :=
  match shapeItems data with
  | Except.error e => Except.error e
  | Except.ok items => itemsRows sid items

/-- The files of one station directory, in listing order; `json.load` either
yields a parsed value or raises, so a file is an `Except` of its parse.  The
first fault in file order aborts (the source processes files sequentially). -/
def flattenFiles (sid : String) : List (Except String Json) → Except String (List FlatRow)
  | [] => Except.ok []
  | Except.error e :: _ => Except.error e
  | Except.ok j :: rest =>
    match fileRows sid j with
    | Except.error e => Except.error e
    | Except.ok rs =>
      match flattenFiles sid rest with
      | Except.error e => Except.error e
      | Except.ok rs2 => Except.ok (rs ++ rs2)

/-- Embeds `flatten_and_clean` (source lines 60-97) over the station directories in
traversal order (stations sorted, file names sorted — the order the source
fixes with `sorted`).  `json.load` has no surrounding handler in the source,
so a parse error propagates. -/
def flattenAndClean : List (String × List (Except String Json)) → Except String (List FlatRow)
  | [] => Except.ok []
  | (sid, files) :: rest =>
    match flattenFiles sid files with
    | Except.error e => Except.error e
    | Except.ok rs =>
      match flattenAndClean rest with
      | Except.error e => Except.error e
      | Except.ok rs2 => Except.ok (rs ++ rs2)

/-! ## Station catalog -/

/-- Longitude, latitude, altitude; each may be missing
(`item.get('longitude', np.nan)`, source lines 108-110). -/
structure StationGeo where
  lon : Option ℚ
  lat : Option ℚ
  alt : Option ℚ
deriving DecidableEq

/-- Embeds `station_info[sid] = {...}` on a Python dict: update in place if the key
exists, else append (insertion order preserved). -/
def insertInfo (m : List (String × StationGeo)) (sid : String) (v : StationGeo) :
    List (String × StationGeo) :=
  if m.any (fun p => p.1 == sid) then
    m.map (fun p => if p.1 == sid then (sid, v) else p)
  else m ++ [(sid, v)]

/-- Embeds `meta.get('data', [])` and `grp.get('item', [])` (source lines 104-105). -/
def metaGroups (meta : Json) : List Json :=
  match meta with
  | Json.jobj kvs =>
    match objGet kvs "data" with
    | some (Json.jarr gs) => gs
    | _ => []
  | _ => []

def groupItems (grp : Json) : List Json :=
  match grp with
  | Json.jobj kvs =>
    match objGet kvs "item" with
    | some (Json.jarr its) => its
    | _ => []
  | _ => []

def numField (kvs : List (String × Json)) (k : String) : Option ℚ :=
  match objGet kvs k with
  | some (Json.jnum q) => some q
  | _ => none

/-- Every `(stationID, geo)` item of the catalog document, in document order
(source lines 104-112, before the valid-station filter). -/
def stationItems (meta : Json) : List (String × StationGeo) :=
  (metaGroups meta).flatMap (fun grp =>
    (groupItems grp).filterMap (fun item =>
      match item with
      | Json.jobj kvs =>
        match objGet kvs "stationID" with
        | some (Json.jstr sid) =>
          some (sid, ⟨numField kvs "longitude", numField kvs "latitude",
                      numField kvs "altitude"⟩)
        | _ => none
      | _ => none))

/-- Embeds `load_station_info` (source lines 99-114): first component is the
`station_info` dict (insertion order, later duplicates overwrite), second is
the `station_meta` data frame rows (duplicates kept).  The function has no
failure path: stations of the valid set absent from the catalog are silently
absent from the result. -/
def loadStationInfo (valid : List String) (meta : Json) :
    List (String × StationGeo) × List (String × StationGeo) :=
  let items := (stationItems meta).filter (fun p => decide (p.1 ∈ valid))
  (items.foldl (fun m p => insertInfo m p.1 p.2) [], items)

/-! ## Controller and result assembly -/

/-- The observable semantics of `results = list(exe.map(impute_slice, groups))`
(source lines 176-177): results are collected in input order and the first
(in input order) worker exception re-raises out of the controller, discarding
every collected result. -/
def runController (nb : NbrMap) (ncols : Nat) :
    List (String × Slice) → Except String (List (String × Slice × List LogEntry))
  | [] => Except.ok []
  | p :: ps =>
    match imputeSlice nb p.1 ncols p.2 with
    | Except.error e => Except.error e
    | Except.ok r =>
      match runController nb ncols ps with
      | Except.error e => Except.error e
      | Except.ok rest => Except.ok ((p.1, r) :: rest)

/-- The distinct non-null timestamps of the flattened table, ascending:
`df0.groupby('DataTime')` sorts its keys and drops null keys. -/
def sliceTimes (flat : List FlatRow) : List String :=
  insSort (fun a b => decide (a ≤ b)) ((flat.filterMap (fun r => r.time)).dedup)

/-- The slice of one timestamp: rows in original order, indexed by station
(`g.set_index('StationID')[feature_cols]`, source line 169). -/
def sliceOf (flat : List FlatRow) (t : String) : Slice :=
  (flat.filter (fun r => r.time == some t)).map (fun r => (r.sid, r.vals))

/-- The `groups` list of source lines 169-170. -/
def groupsOf (flat : List FlatRow) : List (String × Slice) :=
  (sliceTimes flat).map (fun t => (t, sliceOf flat t))

/-- One row of the final table: station, timestamp, feature cells, and the
left-joined catalog columns (`none` when the station has no catalog row). -/
structure OutRow where
  sid : String
  time : String
  vals : List Cell
  geo : Option StationGeo

/-- Embeds `pd.concat([g.assign(DataTime=t) ...])` (source line 179). -/
def concatSlices (results : List (String × Slice × List LogEntry)) :
    List (String × String × Row) :=
  results.flatMap (fun p => p.2.1.map (fun r => (r.1, p.1, r.2)))

/-- Embeds `imputed.merge(station_meta_df, on='StationID', how='left')` (source
line 180): each left row is paired with every matching catalog row, or kept
once with missing catalog columns when there is no match. -/
def mergeLeft (rows : List (String × String × Row)) (meta : List (String × StationGeo)) :
    List OutRow :=
  rows.flatMap (fun r =>
    match meta.filter (fun m => m.1 == r.1) with
    | [] => [⟨r.1, r.2.1, r.2.2, none⟩]
    | ms => ms.map (fun m => ⟨r.1, r.2.1, r.2.2, some m.2⟩))

/-- The result-assembly tail of `main` (source lines 168-182): partition the
flattened table into time slices, impute each slice, concatenate, and
left-join the catalog rows. -/
def assembleMain (nb : NbrMap) (ncols : Nat) (meta : List (String × StationGeo))
    (flat : List FlatRow) : Except String (List OutRow) :=
  match runController nb ncols (groupsOf flat) with
  | Except.error e => Except.error e
  | Except.ok results => Except.ok (mergeLeft (concatSlices results) meta)

/-- The number of distinct `(StationID, Timestamp)` pairs of the flattened
table (the claimed output row count). -/
def distinctPairs (flat : List FlatRow) : Nat :=
  ((flat.map (fun r => (r.sid, r.time))).dedup).length

/-- The column-`c` view of a slice at a station: `none` when the station has
no row, otherwise the stored cell.  The neighbor scan of one column reads
only this view. -/
def colCell (g : Slice) (c : Nat) (s : String) : Option Cell :=
  (rowOf g s).map (fun row => row.getD c none)

/-- The minimum of a list of values (`min(candidate values)` of the claims;
0 on the empty list, which no claim uses). -/
def listMin : List ℚ → ℚ
  | [] => 0
  | x :: xs => xs.foldl min x

/-- The maximum of a list of values (`max(candidate values)` of the claims). -/
def listMax : List ℚ → ℚ
  | [] => 0
  | x :: xs => xs.foldl max x

/-! # Theorems -/

/-! ## C10 — in-place imputation and order dependence -/

/-- Claim C10: the worker writes each filled estimate into the slice before
moving on, so an imputed value counts as a non-missing candidate for a
later-processed station.  Concretely: with rows in order `A,B,C,D,E` the
missing cell of `E` reaches quorum only because the just-imputed value of `A`
(filled to `2` from `B,C,D`) counts as its third candidate, and `E` is filled
to `5/3` from `{A↦2, B↦1, C↦2}`; with the same rows reordered so `E` is
processed first, `E` finds only two candidates, stays missing, and one log
entry is emitted — the filled set and the estimates depend on the station
iteration order. -/
theorem c10_inplace_order_dependence :
    imputeSlice [("A", [("B",1),("C",1),("D",1)]), ("E", [("A",1),("B",1),("C",1)])] "t" 1
        [("A",[none]), ("B",[some (CellVal.num 1)]), ("C",[some (CellVal.num 2)]),
         ("D",[some (CellVal.num 3)]), ("E",[none])]
      = Except.ok ([("A",[some (CellVal.num 2)]), ("B",[some (CellVal.num 1)]),
                    ("C",[some (CellVal.num 2)]), ("D",[some (CellVal.num 3)]),
                    ("E",[some (CellVal.num (5/3))])], [])
  ∧ imputeSlice [("A", [("B",1),("C",1),("D",1)]), ("E", [("A",1),("B",1),("C",1)])] "t" 1
        [("E",[none]), ("A",[none]), ("B",[some (CellVal.num 1)]),
         ("C",[some (CellVal.num 2)]), ("D",[some (CellVal.num 3)])]
      = Except.ok ([("E",[none]), ("A",[some (CellVal.num 2)]), ("B",[some (CellVal.num 1)]),
                    ("C",[some (CellVal.num 2)]), ("D",[some (CellVal.num 3)])],
                   [("t", "E", 0)]) := by
  constructor <;>
  · repeat
    first
    | rfl
    | simp +decide [imputeSlice, imputeStations, processCols, processCell, scanNbrs,
        estimateIDW, numCands, candsOf, idwWeight, setCell, valAt, rowOf, nbGet, MIN_NEIGHBORS,
        IDW_POWER, List.range_succ, List.find?, runController]
    | norm_num

/-! ## C2 — worker failure aborts the controller -/

/-- Claim C2 (code divergence): one slice's worker exception aborts the whole
collection.  A genuine worker failure needs an object-dtype value: here
station `B`'s raw file carries the non-numeric precipitation payload `"T"`
(trace), which the flattener stores as-is (third conjunct), `pd.notna` counts
it as a candidate, and `sum(v*wi ...)` raises `TypeError` in the second
slice's worker.  The first slice succeeds on its own (second conjunct), yet
`runController` on the pair re-raises the exception, discarding the
completed first slice and producing no aggregate summary. -/
theorem c2_controller_aborts_on_worker_failure :
    runController [("M", [("B",1),("C",1),("D",2)])] 1
        [("t1", [("A", [some (CellVal.num 1)])]),
         ("t2", [("M",[none]), ("B",[some (CellVal.obj (Json.jstr "T"))]),
                 ("C",[some (CellVal.num 2)]), ("D",[some (CellVal.num 3)])])]
      = Except.error "TypeError: unsupported operand type(s) in the IDW sum"
  ∧ imputeSlice [("M", [("B",1),("C",1),("D",2)])] "t1" 1 [("A", [some (CellVal.num 1)])]
      = Except.ok ([("A", [some (CellVal.num 1)])], [])
  ∧ flattenAndClean [("B", [Except.ok (Json.jobj [("data", Json.jarr [Json.jobj
        [("dts", Json.jarr [Json.jobj [("DataTime", Json.jstr "t1"),
          ("Precipitation", Json.jobj [("Accumulation", Json.jstr "T")])]])]])])])]
      = Except.ok [⟨"B", some "t1", featureCols.map (fun gs =>
          if gs = ("Precipitation", "Accumulation")
          then some (CellVal.obj (Json.jstr "T")) else none)⟩] := by
  refine ⟨?_, ?_, ?_⟩ <;>
  · repeat
    first
    | rfl
    | simp +decide [imputeSlice, imputeStations, processCols, processCell, scanNbrs,
        estimateIDW, numCands, candsOf, idwWeight, setCell, valAt, rowOf, nbGet, MIN_NEIGHBORS,
        IDW_POWER, List.range_succ, List.find?, runController]
    | norm_num

/-! ## C3 — degenerate weight sum -/

/-- Counterexample to claim C3: a slice whose missing cell reaches quorum
with every candidate at distance 0 (zero weight sum) is not classified or
handled — the division yields `nan` silently (numpy float64 semantics), line
157 writes the nan back, and the worker completes normally: `M`'s cell is
still missing in the output, the slice is otherwise unchanged, and the log is
empty.  The invalid numeric result is propagated into the output slice. -/
theorem c3_counterexample_silent_nan :
    MIN_NEIGHBORS ≤ (scanNbrs
        [("M",[none]), ("B",[some (CellVal.num 1)]), ("C",[some (CellVal.num 2)]),
         ("D",[some (CellVal.num 3)])] 0
        (nbGet [("M", [("B",0),("C",0),("D",0)])] "M") []).length
  ∧ imputeSlice [("M", [("B",0),("C",0),("D",0)])] "t" 1
        [("M",[none]), ("B",[some (CellVal.num 1)]), ("C",[some (CellVal.num 2)]),
         ("D",[some (CellVal.num 3)])]
      = Except.ok ([("M",[none]), ("B",[some (CellVal.num 1)]), ("C",[some (CellVal.num 2)]),
                    ("D",[some (CellVal.num 3)])], []) := by
  constructor <;>
  · repeat
    first
    | rfl
    | simp +decide [imputeSlice, imputeStations, processCols, processCell, scanNbrs,
        estimateIDW, numCands, candsOf, idwWeight, setCell, valAt, rowOf, nbGet, MIN_NEIGHBORS,
        IDW_POWER, List.range_succ, List.find?, runController]
    | norm_num

/-! ## C7 — missing station metadata is silent -/

/-- Counterexample to claim C7: with valid stations `A,B` and a catalog
containing only `A`, `load_station_info` does not fail; it silently returns a
mapping covering only `A`, and the neighbor-graph construction proceeds on
that subset. -/
theorem c7_counterexample_silent_subset :
    ((loadStationInfo ["A", "B"]
        (Json.jobj [("data", Json.jarr [Json.jobj [("item", Json.jarr
          [Json.jobj [("stationID", Json.jstr "A"),
                      ("longitude", Json.jnum 121)]])]])])).1).map (fun p => p.1)
      = ["A"]
  ∧ "B" ∈ ["A", "B"] ∧ "B" ∉ ["A"] := by
  refine ⟨rfl, by decide, by decide⟩

/-! ## C8 — malformed raw files -/

/-- Counterexample to claim C8: an unparseable raw file is fatal.  Station
`A`'s file fails to parse and the whole flattening run aborts with the parse
error, so station `B`'s well-formed observations (which flatten to one row
when `A`'s file is absent, second conjunct) never appear. -/
theorem c8_counterexample_unparseable_fatal :
    flattenAndClean
        [("A", [Except.error "JSONDecodeError"]),
         ("B", [Except.ok (Json.jobj [("data", Json.jarr [Json.jobj [("dts", Json.jarr
           [Json.jobj [("DataTime", Json.jstr "t1")]])]])])])]
      = Except.error "JSONDecodeError"
  ∧ flattenAndClean
        [("B", [Except.ok (Json.jobj [("data", Json.jarr [Json.jobj [("dts", Json.jarr
           [Json.jobj [("DataTime", Json.jstr "t1")]])]])])])]
      = Except.ok [⟨"B", some "t1", featureCols.map (fun _ => none)⟩] := by
  constructor <;> rfl

/-! ## C6 — row conservation in the result assembler -/

/-- Counterexample to claim C6: a flattened row with a null timestamp is
dropped by the time-slice partition (`groupby` discards null keys), so the
assembled output has 1 row while the flattened input has 2 distinct
`(StationID, Timestamp)` pairs. -/
theorem c6_counterexample_null_time_dropped :
    assembleMain [] 1 [("A", ⟨some 121, some 25, none⟩)]
        [⟨"A", some "t1", [some (CellVal.num 1)]⟩, ⟨"A", none, [some (CellVal.num 2)]⟩]
      = Except.ok [⟨"A", "t1", [some (CellVal.num 1)], some ⟨some 121, some 25, none⟩⟩]
  ∧ distinctPairs [⟨"A", some "t1", [some (CellVal.num 1)]⟩,
      ⟨"A", none, [some (CellVal.num 2)]⟩] = 2 := by
  constructor <;> rfl

/-! ## Sorting lemmas -/

theorem insOne_perm (le : α → α → Bool) (x : α) (l : List α) :
    List.Perm (insOne le x l) (x :: l) := by
  induction l with
  | nil => exact List.Perm.refl _
  | cons y ys ih =>
    simp only [insOne]
    split
    · exact List.Perm.refl _
    · exact (ih.cons y).trans (List.Perm.swap x y ys)

theorem insSort_perm (le : α → α → Bool) (l : List α) : List.Perm (insSort le l) l := by
  induction l with
  | nil => exact List.Perm.refl _
  | cons x xs ih => exact (insOne_perm le x (insSort le xs)).trans (ih.cons x)

theorem mem_insOne (le : α → α → Bool) (x a : α) (l : List α) :
    a ∈ insOne le x l ↔ a = x ∨ a ∈ l := by
  rw [(insOne_perm le x l).mem_iff]
  simp

theorem mem_insSort (le : α → α → Bool) (a : α) (l : List α) :
    a ∈ insSort le l ↔ a ∈ l :=
  (insSort_perm le l).mem_iff

theorem insOne_pairwise [LinearOrder γ] (k : α → γ) (x : α) (l : List α)
    (h : List.Pairwise (fun a b => k a ≤ k b) l) :
    List.Pairwise (fun a b => k a ≤ k b) (insOne (fun a b => decide (k a ≤ k b)) x l) := by
  induction l with
  | nil => simp [insOne]
  | cons y ys ih =>
    rw [List.pairwise_cons] at h
    simp only [insOne]
    split
    · rename_i hxy
      have hxy' : k x ≤ k y := of_decide_eq_true hxy
      refine List.pairwise_cons.mpr ⟨?_, List.pairwise_cons.mpr h⟩
      intro b hb
      rcases List.mem_cons.mp hb with rfl | hb
      · exact hxy'
      · exact le_trans hxy' (h.1 b hb)
    · rename_i hxy
      have hyx : k y < k x := lt_of_not_le (by simpa using hxy)
      refine List.pairwise_cons.mpr ⟨?_, ih h.2⟩
      intro b hb
      rcases (mem_insOne _ x b ys).mp hb with rfl | hb
      · exact hyx.le
      · exact h.1 b hb

theorem insSort_pairwise [LinearOrder γ] (k : α → γ) (l : List α) :
    List.Pairwise (fun a b => k a ≤ k b) (insSort (fun a b => decide (k a ≤ k b)) l) := by
  induction l with
  | nil => simp [insSort]
  | cons x xs ih => exact insOne_pairwise k x _ ih

theorem insOne_filter [LinearOrder γ] (k : α → γ) (q : γ) (x : α) (l : List α) :
    (insOne (fun a b => decide (k a ≤ k b)) x l).filter (fun a => decide (k a = q))
      = if k x = q then x :: l.filter (fun a => decide (k a = q))
        else l.filter (fun a => decide (k a = q)) := by
  induction l with
  | nil =>
    by_cases hx : k x = q <;> simp [insOne, hx]
  | cons y ys ih =>
    simp only [insOne]
    split
    · by_cases hx : k x = q <;> simp [List.filter_cons, hx]
    · rename_i hxy
      have hyx : k y < k x := lt_of_not_le (by simpa using hxy)
      by_cases hx : k x = q
      · have hy : ¬ (k y = q) := by
          intro hy
          rw [hy, hx] at hyx
          exact lt_irrefl q hyx
        simp [List.filter_cons, hy, ih, hx]
      · simp only [List.filter_cons, ih, hx, if_false]
  

theorem insSort_filter [LinearOrder γ] (k : α → γ) (q : γ) (l : List α) :
    (insSort (fun a b => decide (k a ≤ k b)) l).filter (fun a => decide (k a = q))
      = l.filter (fun a => decide (k a = q)) := by
  induction l with
  | nil => rfl
  | cons x xs ih =>
    simp only [insSort, insOne_filter, ih]
    by_cases hx : k x = q <;> simp [List.filter_cons, hx]

/-! ## Neighbor-graph lemmas (claims C4, C9) -/

theorem find?_map_mk {β : Type} (l : List String) (sid : String) (F : String → β)
    (h : sid ∈ l) :
    (l.map (fun s => (s, F s))).find? (fun p => p.1 == sid) = some (sid, F sid) := by
  induction l with
  | nil => cases h
  | cons a as ih =>
    by_cases ha : a = sid
    · subst ha
      simp [List.find?_cons]
    · have ha' : (a == sid) = false := by simpa using ha
      have hmem : sid ∈ as := by
        rcases List.mem_cons.mp h with h' | h'
        · exact absurd h'.symm ha
        · exact h'
      simp [List.find?_cons, ha', ih hmem]

theorem nbGet_computeNeighbors (sids : List String) (dist : String → String → ℚ)
    (sid : String) (h : sid ∈ sids) :
    nbGet (computeNeighbors sids dist) sid
      = (insSort (fun a b => decide (a.2 ≤ b.2))
          ((sids.filter (fun o => o != sid)).map (fun o => (o, dist sid o)))).map
        (fun p => (p.1, roundTo4 p.2)) := by
  unfold nbGet computeNeighbors
  rw [find?_map_mk sids sid _ h]

theorem roundTo4_mono {x y : ℚ} (h : x ≤ y) : roundTo4 x ≤ roundTo4 y := by
  unfold roundTo4
  have hr : round (x * 10000) ≤ round (y * 10000) := by
    rw [round_eq, round_eq]
    exact Int.floor_mono (by linarith)
  have hc : ((round (x * 10000) : ℤ) : ℚ) ≤ ((round (y * 10000) : ℤ) : ℚ) :=
    Int.cast_le.mpr hr
  exact div_le_div_of_nonneg_right hc (by norm_num) |>.trans_eq rfl

theorem length_filter_ne (sids : List String) (sid : String)
    (hnd : sids.Nodup) (h : sid ∈ sids) :
    (sids.filter (fun o => o != sid)).length = sids.length - 1 := by
  induction sids with
  | nil => cases h
  | cons a as ih =>
    rw [List.nodup_cons] at hnd
    by_cases ha : a = sid
    · subst ha
      have : ∀ o ∈ as, (o != a) = true := by
        intro o ho
        have : o ≠ a := fun e => hnd.1 (e ▸ ho)
        simpa using this
      simp [List.filter_cons, List.filter_eq_self.mpr this]
    · have hmem : sid ∈ as := by
        rcases List.mem_cons.mp h with h' | h'
        · exact absurd h'.symm ha
        · exact h'
      have ha' : (a != sid) = true := by simpa using ha
      have hlen : 1 ≤ as.length := List.length_pos.mpr (List.ne_nil_of_mem hmem)
      simp only [List.filter_cons, ha', if_true, List.length_cons, ih hnd.2 hmem]
      omega

/-- Claim C4 as amended: for every station of the builder's catalog — the
valid stations that have a catalog entry, which is the builder's actual input
`station_info` and may omit valid stations (claim C7) — its neighbor list has
length `|catalog| - 1`, is ascending in the true 3D distance (hence also in
the persisted 4-decimal rounded distances it stores), and never contains the
station itself.  The frozen claim's `|valid stations| - 1` holds only when
the catalog covers the whole valid set. -/
theorem c4_neighbor_invariants (sids : List String) (dist : String → String → ℚ)
    (sid : String) (hnd : sids.Nodup) (hmem : sid ∈ sids) :
    (nbGet (computeNeighbors sids dist) sid).length = sids.length - 1
    ∧ List.Pairwise (fun a b => dist sid a.1 ≤ dist sid b.1)
        (nbGet (computeNeighbors sids dist) sid)
    ∧ List.Pairwise (fun a b => a.2 ≤ b.2) (nbGet (computeNeighbors sids dist) sid)
    ∧ ∀ p ∈ nbGet (computeNeighbors sids dist) sid, p.1 ≠ sid := by
  rw [nbGet_computeNeighbors sids dist sid hmem]
  have hraw : List.Pairwise (fun a b : String × ℚ => a.2 ≤ b.2)
      (insSort (fun a b => decide (a.2 ≤ b.2))
        ((sids.filter (fun o => o != sid)).map (fun o => (o, dist sid o)))) :=
    insSort_pairwise (fun p : String × ℚ => p.2) _
  have hmemraw : ∀ p ∈ insSort (fun a b => decide (a.2 ≤ b.2))
      ((sids.filter (fun o => o != sid)).map (fun o => (o, dist sid o))),
      p.2 = dist sid p.1 ∧ p.1 ≠ sid := by
    intro p hp
    have hp' := (mem_insSort _ p _).mp hp
    rcases List.mem_map.mp hp' with ⟨o, ho, rfl⟩
    have hne : o ≠ sid := by simpa using (List.of_mem_filter ho)
    exact ⟨rfl, hne⟩
  refine ⟨?_, ?_, ?_, ?_⟩
  · rw [List.length_map, (insSort_perm _ _).length_eq, List.length_map]
    exact length_filter_ne sids sid hnd hmem
  · refine List.pairwise_map.mpr ?_
    refine (hraw.imp_of_mem ?_)
    intro a b ha hb hle
    have h1 := (hmemraw a ha).1
    have h2 := (hmemraw b hb).1
    rw [h1, h2] at hle
    simpa using hle
  · refine List.pairwise_map.mpr ?_
    exact hraw.imp (fun {a b} hle => roundTo4_mono hle)
  · intro p hp
    rcases List.mem_map.mp hp with ⟨p', hp', rfl⟩
    exact (hmemraw p' hp').2

theorem c4_witness :
    (["A", "B", "C"].Nodup ∧ "B" ∈ ["A", "B", "C"])
    ∧ ((nbGet (computeNeighbors ["A", "B", "C"] (fun _ _ => (1:ℚ))) "B").length
          = ["A", "B", "C"].length - 1
       ∧ List.Pairwise (fun a b => (fun _ _ => (1:ℚ)) "B" a.1 ≤ (fun _ _ => (1:ℚ)) "B" b.1)
           (nbGet (computeNeighbors ["A", "B", "C"] (fun _ _ => (1:ℚ))) "B")
       ∧ List.Pairwise (fun a b => a.2 ≤ b.2)
           (nbGet (computeNeighbors ["A", "B", "C"] (fun _ _ => (1:ℚ))) "B")
       ∧ ∀ p ∈ nbGet (computeNeighbors ["A", "B", "C"] (fun _ _ => (1:ℚ))) "B",
           p.1 ≠ "B") :=
  ⟨⟨by decide, by decide⟩,
   c4_neighbor_invariants ["A", "B", "C"] (fun _ _ => (1:ℚ)) "B" (by decide) (by decide)⟩

/-- Counterexample to claim C4 as frozen (which quantifies over the
valid-station set): the builder receives `station_info`, whose keys are only
the valid stations that have a catalog entry (claim C7).  With valid set
`A,B,C` and a catalog holding only `A` and `B`, the builder's input is
`[A, B]`: station `A`'s neighbor list has length `1`, not
`|valid stations| - 1 = 2`, and the valid station `C` has no neighbor list at
all — the invariants hold only relative to the builder's catalog. -/
theorem c4_counterexample_catalog_gap :
    (((loadStationInfo ["A", "B", "C"]
        (Json.jobj [("data", Json.jarr [Json.jobj [("item", Json.jarr
          [Json.jobj [("stationID", Json.jstr "A"), ("longitude", Json.jnum 121)],
           Json.jobj [("stationID", Json.jstr "B"), ("longitude", Json.jnum 122)]])]])])).1).map
      (fun p => p.1) = ["A", "B"])
    ∧ (nbGet (computeNeighbors ["A", "B"] (fun _ _ => (1:ℚ))) "A").length = 1
    ∧ ["A", "B", "C"].length - 1 = 2
    ∧ (1 : Nat) ≠ 2
    ∧ nbGet (computeNeighbors ["A", "B"] (fun _ _ => (1:ℚ))) "C" = []
    ∧ "C" ∈ ["A", "B", "C"] := by
  refine ⟨rfl, ?_, rfl, by decide, ?_, by decide⟩ <;>
  · repeat
      first
      | rfl
      | simp +decide [computeNeighbors, nbGet, insSort, insOne, List.find?]
      | norm_num

/-- Counterexample to claim C9: with all pairwise distances equal (a total
tie) the builder emits station `S`'s neighbors in catalog order — `B` before
`A` for catalog `[S,B,A]` although `A < B` as station IDs — and reversing the
catalog order of `A` and `B` reverses the emitted order, so tie order follows
the metadata catalog, not the station ID, and depends on catalog order. -/
theorem c9_counterexample_tie_order :
    (nbGet (computeNeighbors ["S", "B", "A"] (fun _ _ => (1:ℚ))) "S").map (fun p => p.1)
        = ["B", "A"]
  ∧ (nbGet (computeNeighbors ["S", "A", "B"] (fun _ _ => (1:ℚ))) "S").map (fun p => p.1)
        = ["A", "B"]
  ∧ (fun _ _ => (1:ℚ)) "S" "B" = (fun _ _ => (1:ℚ)) "S" "A"
  ∧ ("A" : String) < "B" := by
  refine ⟨?_, ?_, rfl, String.lt_iff_toList_lt.mpr (by decide)⟩ <;>
  · repeat
      first
      | rfl
      | simp +decide [computeNeighbors, nbGet, insSort, insOne, List.find?]
      | norm_num

/-- On a list whose second components record `dist1` of the first components,
filtering by the distance of the named station equals filtering by the stored
distance. -/
theorem filter_distEq {l : List (String × ℚ)} (dist1 : String → ℚ) (q : ℚ)
    (h : ∀ p ∈ l, p.2 = dist1 p.1) :
    l.filter (fun p => decide (dist1 p.1 = q)) = l.filter (fun p => decide (p.2 = q)) :=
  List.filter_congr (fun p hp => decide_eq_decide.mpr (by rw [h p hp]))

/-- Claim C9 as amended: the builder is deterministic for a fixed catalog,
but ties are broken by catalog order, not station ID: within every class of
neighbors at one common true distance `q`, the emitted neighbor entries are
exactly the other stations of that class in catalog order (Python's sort is
stable and keys only on distance). -/
theorem c9_amended_stable_ties (sids : List String) (dist : String → String → ℚ)
    (sid : String) (hmem : sid ∈ sids) (q : ℚ) :
    (nbGet (computeNeighbors sids dist) sid).filter (fun p => decide (dist sid p.1 = q))
      = ((sids.filter (fun o => o != sid)).filter (fun o => decide (dist sid o = q))).map
          (fun o => (o, roundTo4 (dist sid o))) := by
  rw [nbGet_computeNeighbors sids dist sid hmem]
  rw [List.filter_map]
  have hc1 : ((fun p : String × ℚ => decide (dist sid p.1 = q)) ∘
      (fun p : String × ℚ => (p.1, roundTo4 p.2)))
      = fun p : String × ℚ => decide (dist sid p.1 = q) := rfl
  rw [hc1]
  have hmemraw : ∀ p ∈ insSort (fun a b => decide (a.2 ≤ b.2))
      ((sids.filter (fun o => o != sid)).map (fun o => (o, dist sid o))),
      p.2 = dist sid p.1 := by
    intro p hp
    rcases List.mem_map.mp ((mem_insSort _ p _).mp hp) with ⟨o, _, rfl⟩
    rfl
  rw [filter_distEq (dist sid) q hmemraw]
  rw [insSort_filter (fun p : String × ℚ => p.2) q]
  have hmemraw2 : ∀ p ∈ (sids.filter (fun o => o != sid)).map (fun o => (o, dist sid o)),
      p.2 = dist sid p.1 := by
    intro p hp
    rcases List.mem_map.mp hp with ⟨o, _, rfl⟩
    rfl
  rw [← filter_distEq (dist sid) q hmemraw2]
  rw [List.filter_map]
  have hc2 : ((fun p : String × ℚ => decide (dist sid p.1 = q)) ∘
      (fun o : String => (o, dist sid o)))
      = fun o : String => decide (dist sid o = q) := rfl
  rw [hc2, List.map_map]
  rfl

theorem c9_amended_witness :
    ("S" ∈ ["S", "B", "A"])
    ∧ (nbGet (computeNeighbors ["S", "B", "A"] (fun _ _ => (1:ℚ))) "S").filter
          (fun p => decide ((fun _ _ => (1:ℚ)) "S" p.1 = 1))
        = ((["S", "B", "A"].filter (fun o => o != "S")).filter
            (fun o => decide ((fun _ _ => (1:ℚ)) "S" o = 1))).map
            (fun o => (o, roundTo4 ((fun _ _ => (1:ℚ)) "S" o))) :=
  ⟨by decide, c9_amended_stable_ties ["S", "B", "A"] (fun _ _ => (1:ℚ)) "S" (by decide) 1⟩

/-! ## Convexity of the IDW estimate (claim C5) -/

theorem foldl_min_bound (xs : List ℚ) (a : ℚ) :
    xs.foldl min a ≤ a ∧ ∀ x ∈ xs, xs.foldl min a ≤ x := by
  induction xs generalizing a with
  | nil => exact ⟨le_refl a, by intro x hx; cases hx⟩
  | cons y ys ih =>
    refine ⟨?_, ?_⟩
    · exact le_trans (ih (min a y)).1 (min_le_left a y)
    · intro x hx
      rcases List.mem_cons.mp hx with rfl | hx
      · exact le_trans (ih (min a x)).1 (min_le_right a x)
      · exact (ih (min a y)).2 x hx

theorem foldl_max_bound (xs : List ℚ) (a : ℚ) :
    a ≤ xs.foldl max a ∧ ∀ x ∈ xs, x ≤ xs.foldl max a := by
  induction xs generalizing a with
  | nil => exact ⟨le_refl a, by intro x hx; cases hx⟩
  | cons y ys ih =>
    refine ⟨?_, ?_⟩
    · exact le_trans (le_max_left a y) (ih (max a y)).1
    · intro x hx
      rcases List.mem_cons.mp hx with rfl | hx
      · exact le_trans (le_max_right a x) (ih (max a x)).1
      · exact (ih (max a y)).2 x hx

theorem listMin_le_mem (vals : List ℚ) (v : ℚ) (hv : v ∈ vals) : listMin vals ≤ v := by
  cases vals with
  | nil => cases hv
  | cons x xs =>
    rcases List.mem_cons.mp hv with rfl | hv
    · exact (foldl_min_bound xs v).1
    · exact (foldl_min_bound xs x).2 v hv

theorem mem_le_listMax (vals : List ℚ) (v : ℚ) (hv : v ∈ vals) : v ≤ listMax vals := by
  cases vals with
  | nil => cases hv
  | cons x xs =>
    rcases List.mem_cons.mp hv with rfl | hv
    · exact (foldl_max_bound xs v).1
    · exact (foldl_max_bound xs x).2 v hv

theorem idwWeight_nonneg (d : ℚ) : 0 ≤ idwWeight d := by
  unfold idwWeight
  split
  · positivity
  · exact le_refl 0

theorem zip_map_weight_sum (cands : List (ℚ × ℚ)) (f : ℚ × ℚ → ℚ) :
    ((cands.zip (cands.map f)).map (fun q => q.1.1 * q.2)).sum
      = (cands.map (fun p => p.1 * f p)).sum := by
  induction cands with
  | nil => rfl
  | cons p ps ih => simp [List.zip_cons_cons, ih]

/-- Claim C5: whenever the candidate weights (which are non-negative by
construction, `idwWeight_nonneg`) have a strictly positive sum, the IDW
estimate the worker writes is a convex combination of the candidate values:
it lies within `[min(candidate values), max(candidate values)]` in exact
arithmetic. -/
theorem c5_convex_combination (cands : List (ℚ × ℚ)) (est : ℚ)
    (hpos : 0 < (cands.map (fun p => idwWeight p.2)).sum)
    (hok : estimateIDW cands = some est) :
    listMin (cands.map (fun p => p.1)) ≤ est
    ∧ est ≤ listMax (cands.map (fun p => p.1)) := by
  unfold estimateIDW at hok
  rw [if_neg (ne_of_gt hpos)] at hok
  have hest : (((cands.zip (cands.map (fun p => idwWeight p.2))).map
      (fun q => q.1.1 * q.2)).sum / (cands.map (fun p => idwWeight p.2)).sum) = est := by
    injection hok
  rw [← hest, zip_map_weight_sum]
  constructor
  · rw [le_div_iff₀ hpos]
    have h1 : (cands.map (fun p => listMin (cands.map (fun p => p.1)) * idwWeight p.2)).sum
        ≤ (cands.map (fun p => p.1 * idwWeight p.2)).sum := by
      apply List.sum_le_sum
      intro p hp
      exact mul_le_mul_of_nonneg_right
        (listMin_le_mem _ p.1 (List.mem_map.mpr ⟨p, hp, rfl⟩)) (idwWeight_nonneg p.2)
    calc listMin (cands.map (fun p => p.1)) * (cands.map (fun p => idwWeight p.2)).sum
        = (cands.map (fun p => listMin (cands.map (fun p => p.1)) * idwWeight p.2)).sum := by
          rw [← List.sum_map_mul_left]
      _ ≤ (cands.map (fun p => p.1 * idwWeight p.2)).sum := h1
  · rw [div_le_iff₀ hpos]
    have h1 : (cands.map (fun p => p.1 * idwWeight p.2)).sum
        ≤ (cands.map (fun p => listMax (cands.map (fun p => p.1)) * idwWeight p.2)).sum := by
      apply List.sum_le_sum
      intro p hp
      exact mul_le_mul_of_nonneg_right
        (mem_le_listMax _ p.1 (List.mem_map.mpr ⟨p, hp, rfl⟩)) (idwWeight_nonneg p.2)
    calc (cands.map (fun p => p.1 * idwWeight p.2)).sum
        ≤ (cands.map (fun p => listMax (cands.map (fun p => p.1)) * idwWeight p.2)).sum := h1
      _ = listMax (cands.map (fun p => p.1)) * (cands.map (fun p => idwWeight p.2)).sum := by
          rw [← List.sum_map_mul_left]

theorem c5_witness :
    (0 < (([((1:ℚ), (1:ℚ)), (3, 2)]).map (fun p => idwWeight p.2)).sum
     ∧ estimateIDW [((1:ℚ), (1:ℚ)), (3, 2)] = some (7/5))
    ∧ (listMin (([((1:ℚ), (1:ℚ)), (3, 2)]).map (fun p => p.1)) ≤ 7/5
       ∧ 7/5 ≤ listMax (([((1:ℚ), (1:ℚ)), (3, 2)]).map (fun p => p.1))) :=
  ⟨⟨by norm_num [idwWeight, IDW_POWER],
    by norm_num [estimateIDW, idwWeight, IDW_POWER]⟩,
   c5_convex_combination [((1:ℚ), (1:ℚ)), (3, 2)] (7/5)
     (by norm_num [idwWeight, IDW_POWER])
     (by norm_num [estimateIDW, idwWeight, IDW_POWER])⟩

/-! ## Station-catalog lemmas (claim C7) -/

theorem keys_insertInfo (m : List (String × StationGeo)) (k : String) (v : StationGeo) :
    (insertInfo m k v).map (fun p => p.1)
      = if m.any (fun p => p.1 == k) then m.map (fun p => p.1)
        else m.map (fun p => p.1) ++ [k] := by
  unfold insertInfo
  split <;> rename_i h
  · rw [List.map_map]
    refine List.map_congr_left ?_
    intro p _
    by_cases hp : p.1 = k
    · simp [hp]
    · simp [hp]
  · simp

theorem mem_keys_insertInfo (m : List (String × StationGeo)) (k : String)
    (v : StationGeo) (sid : String) :
    sid ∈ (insertInfo m k v).map (fun p => p.1)
      ↔ sid = k ∨ sid ∈ m.map (fun p => p.1) := by
  rw [keys_insertInfo]
  split <;> rename_i h
  · constructor
    · intro hm
      exact Or.inr hm
    · intro hm
      rcases hm with rfl | hm
      · rcases List.any_eq_true.mp h with ⟨p, hp, hpk⟩
        have : p.1 = sid := by simpa using hpk
        exact this ▸ List.mem_map.mpr ⟨p, hp, rfl⟩
      · exact hm
  · rw [List.mem_append]
    constructor
    · intro hm
      rcases hm with hm | hm
      · exact Or.inr hm
      · exact Or.inl (by simpa using hm)
    · intro hm
      rcases hm with rfl | hm
      · exact Or.inr (by simp)
      · exact Or.inl hm

theorem mem_keys_foldl_insertInfo (items : List (String × StationGeo))
    (m : List (String × StationGeo)) (sid : String) :
    sid ∈ (items.foldl (fun m p => insertInfo m p.1 p.2) m).map (fun p => p.1)
      ↔ sid ∈ m.map (fun p => p.1) ∨ sid ∈ items.map (fun p => p.1) := by
  induction items generalizing m with
  | nil => simp
  | cons it its ih =>
    rw [List.foldl_cons, ih, mem_keys_insertInfo]
    simp only [List.map_cons, List.mem_cons]
    tauto

/-- Claim C7 as amended: `load_station_info` never fails; it silently returns
the mapping restricted to the stations that both belong to the valid set and
have a catalog item — a valid station without a catalog entry is simply
absent (and downstream has no neighbor list), with no fatal `MissingMetadata`
condition. -/
theorem c7_amended_silent_restriction (valid : List String) (meta : Json) (sid : String) :
    sid ∈ ((loadStationInfo valid meta).1).map (fun p => p.1)
      ↔ sid ∈ valid ∧ sid ∈ (stationItems meta).map (fun p => p.1) := by
  unfold loadStationInfo
  rw [mem_keys_foldl_insertInfo]
  simp only [List.map_nil, List.not_mem_nil, false_or]
  constructor
  · intro hm
    rcases List.mem_map.mp hm with ⟨p, hp, rfl⟩
    have hf := List.mem_filter.mp hp
    exact ⟨of_decide_eq_true hf.2, List.mem_map.mpr ⟨p, hf.1, rfl⟩⟩
  · intro ⟨hv, hm⟩
    rcases List.mem_map.mp hm with ⟨p, hp, rfl⟩
    exact List.mem_map.mpr ⟨p, List.mem_filter.mpr ⟨hp, decide_eq_true hv⟩, rfl⟩

/-! ## Flattener error handling (claim C8) -/

/-- Claim C8 as amended: a file that parses but yields no items — a top-level
scalar, an object with neither a `data` key nor `StationID`+`dts`, or a
wrapper whose `data` value is an empty list, empty string or empty object —
contributes no rows and the run continues with no warning of any kind
(removing the file changes nothing); a file that fails to parse raises the
parse error, which aborts the whole flattening run; and a wrapper whose
`data` value is any other non-list (a non-empty string or object, a number,
a bool, `null`) is equally fatal — iterating or `.get`-ing the payload raises
`TypeError`/`AttributeError`, uncaught.  No malformed file is ever skipped
with a warning. -/
theorem c8_amended_malformed_classes (pre post : List (String × List (Except String Json)))
    (sid : String) (j : Json) (hshape : shapeItems j = Except.ok []) :
    flattenAndClean (pre ++ (sid, [Except.ok j]) :: post) = flattenAndClean (pre ++ post)
    ∧ (∀ (e : String) (fs : List (Except String Json)),
        flattenAndClean ((sid, Except.error e :: fs) :: post) = Except.error e)
    ∧ (∀ (j2 : Json) (e2 : String), shapeItems j2 = Except.error e2 →
        ∀ fs, flattenAndClean ((sid, Except.ok j2 :: fs) :: post) = Except.error e2) := by
  refine ⟨?_, ?_, ?_⟩
  · have hfr : fileRows sid j = Except.ok [] := by
      unfold fileRows
      rw [hshape]
      rfl
    induction pre with
    | nil =>
      simp only [List.nil_append, flattenAndClean, flattenFiles, hfr]
      cases hpost : flattenAndClean post <;> simp
    | cons hd tl ih =>
      simp only [List.cons_append, flattenAndClean, List.append_eq]
      rw [ih]
  · intro e fs
    rfl
  · intro j2 e2 hj2 fs
    have hfr2 : fileRows sid j2 = Except.error e2 := by
      unfold fileRows
      rw [hj2]
    simp only [flattenAndClean, flattenFiles, hfr2]

theorem c8_amended_witness :
    shapeItems Json.jnull = Except.ok []
    ∧ (flattenAndClean ([] ++ ("X", [Except.ok Json.jnull]) :: []) = flattenAndClean ([] ++ [])
       ∧ (∀ (e : String) (fs : List (Except String Json)),
           flattenAndClean (("X", Except.error e :: fs) :: []) = Except.error e)
       ∧ (∀ (j2 : Json) (e2 : String), shapeItems j2 = Except.error e2 →
           ∀ fs, flattenAndClean (("X", Except.ok j2 :: fs) :: []) = Except.error e2)) :=
  ⟨rfl, c8_amended_malformed_classes [] [] "X" Json.jnull rfl⟩

/-! ## Degenerate weight sum (claim C3) -/

/-- Claim C3 as amended: the worker does not classify or handle the
all-zero-weight case — whenever a missing cell reaches quorum with numeric
candidates whose weights sum to zero, the division `sum(v*w)/sum(w)` is a
numpy float64 `0.0/0`, which yields `nan` with only a `RuntimeWarning`; line
157 writes the nan back (the cell stays missing), no log entry is emitted,
and the cell step completes normally — the invalid numeric result is
silently propagated into the output slice. -/
theorem c3_amended_silent_nan_write (nb : NbrMap) (t : String) (g : Slice) (s : String)
    (c : Nat) (log : List LogEntry) (cands : List (ℚ × ℚ))
    (hmiss : valAt g s c = none)
    (hq : MIN_NEIGHBORS ≤ (scanNbrs g c (nbGet nb s) []).length)
    (hnum : numCands (candsOf g c (scanNbrs g c (nbGet nb s) [])) = some cands)
    (hw : (cands.map (fun p => idwWeight p.2)).sum = 0) :
    processCell nb t g s c log = Except.ok (setCell g s c none, log) := by
  simp only [processCell, hmiss]
  rw [if_neg (Nat.not_lt.mpr hq), hnum]
  have hest : estimateIDW cands = none := by
    simp only [estimateIDW]
    rw [if_pos hw]
  show Except.ok (setCell g s c ((estimateIDW cands).map CellVal.num), log)
      = Except.ok (setCell g s c none, log)
  rw [hest]
  rfl

theorem c3_amended_witness :
    (valAt [("M", [none]), ("B", [some (CellVal.num 1)]), ("C", [some (CellVal.num 2)]),
        ("D", [some (CellVal.num 3)])] "M" 0 = none
     ∧ MIN_NEIGHBORS ≤ (scanNbrs [("M", [none]), ("B", [some (CellVal.num 1)]),
         ("C", [some (CellVal.num 2)]), ("D", [some (CellVal.num 3)])] 0
         (nbGet [("M", [("B", 0), ("C", 0), ("D", 0)])] "M") []).length
     ∧ numCands (candsOf [("M", [none]), ("B", [some (CellVal.num 1)]),
          ("C", [some (CellVal.num 2)]), ("D", [some (CellVal.num 3)])] 0
          (scanNbrs [("M", [none]), ("B", [some (CellVal.num 1)]),
            ("C", [some (CellVal.num 2)]), ("D", [some (CellVal.num 3)])] 0
            (nbGet [("M", [("B", 0), ("C", 0), ("D", 0)])] "M") []))
         = some [((1:ℚ), (0:ℚ)), (2, 0), (3, 0)]
     ∧ (([((1:ℚ), (0:ℚ)), (2, 0), (3, 0)]).map (fun p => idwWeight p.2)).sum = 0)
    ∧ processCell [("M", [("B", 0), ("C", 0), ("D", 0)])] "t"
        [("M", [none]), ("B", [some (CellVal.num 1)]), ("C", [some (CellVal.num 2)]),
         ("D", [some (CellVal.num 3)])] "M" 0 []
        = Except.ok (setCell [("M", [none]), ("B", [some (CellVal.num 1)]),
            ("C", [some (CellVal.num 2)]), ("D", [some (CellVal.num 3)])] "M" 0 none, []) := by
  have h1 : valAt [("M", [none]), ("B", [some (CellVal.num 1)]), ("C", [some (CellVal.num 2)]),
      ("D", [some (CellVal.num 3)])] "M" 0 = none := by rfl
  have h2 : MIN_NEIGHBORS ≤ (scanNbrs [("M", [none]), ("B", [some (CellVal.num 1)]),
      ("C", [some (CellVal.num 2)]), ("D", [some (CellVal.num 3)])] 0
      (nbGet [("M", [("B", 0), ("C", 0), ("D", 0)])] "M") []).length := by
    repeat
      first
      | rfl
      | simp +decide [scanNbrs, nbGet, rowOf, valAt, MIN_NEIGHBORS, List.find?]
      | norm_num
  have h3 : numCands (candsOf [("M", [none]), ("B", [some (CellVal.num 1)]),
      ("C", [some (CellVal.num 2)]), ("D", [some (CellVal.num 3)])] 0
      (scanNbrs [("M", [none]), ("B", [some (CellVal.num 1)]),
        ("C", [some (CellVal.num 2)]), ("D", [some (CellVal.num 3)])] 0
        (nbGet [("M", [("B", 0), ("C", 0), ("D", 0)])] "M") []))
      = some [((1:ℚ), (0:ℚ)), (2, 0), (3, 0)] := by
    repeat
      first
      | rfl
      | simp +decide [numCands, candsOf, scanNbrs, nbGet, rowOf, valAt, MIN_NEIGHBORS,
          List.find?]
      | norm_num
  have h4 : (([((1:ℚ), (0:ℚ)), (2, 0), (3, 0)]).map (fun p => idwWeight p.2)).sum = 0 := by
    norm_num [idwWeight, IDW_POWER]
  exact ⟨⟨h1, h2, h3, h4⟩,
    c3_amended_silent_nan_write [("M", [("B", 0), ("C", 0), ("D", 0)])] "t"
      [("M", [none]), ("B", [some (CellVal.num 1)]), ("C", [some (CellVal.num 2)]),
       ("D", [some (CellVal.num 3)])] "M" 0 [] [((1:ℚ), (0:ℚ)), (2, 0), (3, 0)] h1 h2 h3 h4⟩

/-! ## Cell-step characterization

`processCell_cases` captures the three completed outcomes of one
`(station, column)` cell (source lines 139-157): not missing (untouched),
missing and under-quorum (logged), missing and at quorum with numeric
candidates (the division result — an estimate, or the silent nan on a zero
weight sum — written into the cell, nothing logged).  A non-numeric
candidate at quorum makes the step error instead (`TypeError`). -/

theorem processCell_cases {nb : NbrMap} {t : String} {g : Slice} {s : String} {c : Nat}
    {log : List LogEntry} {g2 : Slice} {log2 : List LogEntry}
    (h : processCell nb t g s c log = Except.ok (g2, log2)) :
    ((∃ v, valAt g s c = some v) ∧ g2 = g ∧ log2 = log)
    ∨ (valAt g s c = none
       ∧ (scanNbrs g c (nbGet nb s) []).length < MIN_NEIGHBORS
       ∧ g2 = g ∧ log2 = log ++ [(t, s, c)])
    ∨ (valAt g s c = none
       ∧ MIN_NEIGHBORS ≤ (scanNbrs g c (nbGet nb s) []).length
       ∧ ∃ cands, numCands (candsOf g c (scanNbrs g c (nbGet nb s) [])) = some cands
            ∧ g2 = setCell g s c ((estimateIDW cands).map CellVal.num) ∧ log2 = log) := by
  unfold processCell at h
  cases hv : valAt g s c with
  | some v =>
    rw [hv] at h
    simp only [Except.ok.injEq, Prod.mk.injEq] at h
    exact Or.inl ⟨⟨v, rfl⟩, h.1.symm, h.2.symm⟩
  | none =>
    rw [hv] at h
    by_cases hlen : (scanNbrs g c (nbGet nb s) []).length < MIN_NEIGHBORS
    · rw [if_pos hlen] at h
      simp only [Except.ok.injEq, Prod.mk.injEq] at h
      exact Or.inr (Or.inl ⟨rfl, hlen, h.1.symm, h.2.symm⟩)
    · rw [if_neg hlen] at h
      cases he : numCands (candsOf g c (scanNbrs g c (nbGet nb s) [])) with
      | none =>
        rw [he] at h
        cases h
      | some cands =>
        rw [he] at h
        simp only [Except.ok.injEq, Prod.mk.injEq] at h
        exact Or.inr (Or.inr ⟨rfl, Nat.le_of_not_lt hlen, cands, rfl, h.1.symm, h.2.symm⟩)

theorem stations_setCell (g : Slice) (s : String) (c : Nat) (v : Cell) :
    (setCell g s c v).map (fun r => r.1) = g.map (fun r => r.1) := by
  unfold setCell
  rw [List.map_map]
  refine List.map_congr_left ?_
  intro r _
  by_cases h : r.1 = s <;> simp [h]

theorem stations_processCell {nb : NbrMap} {t : String} {g : Slice} {s : String} {c : Nat}
    {log : List LogEntry} {g2 : Slice} {log2 : List LogEntry}
    (h : processCell nb t g s c log = Except.ok (g2, log2)) :
    g2.map (fun r => r.1) = g.map (fun r => r.1) := by
  rcases processCell_cases h with ⟨_, rfl, _⟩ | ⟨_, _, rfl, _⟩ | ⟨_, _, cands, _, rfl, _⟩
  · rfl
  · rfl
  · exact stations_setCell g s c _

theorem stations_processCols {nb : NbrMap} {t : String} {s : String} :
    ∀ (cs : List Nat) {g : Slice} {log : List LogEntry} {g2 : Slice} {log2 : List LogEntry},
    processCols nb t s cs g log = Except.ok (g2, log2) →
    g2.map (fun r => r.1) = g.map (fun r => r.1) := by
  intro cs
  induction cs with
  | nil =>
    intro g log g2 log2 h
    simp only [processCols, Except.ok.injEq, Prod.mk.injEq] at h
    rw [← h.1]
  | cons c cs ih =>
    intro g log g2 log2 h
    simp only [processCols] at h
    cases hc : processCell nb t g s c log with
    | error e => rw [hc] at h; cases h
    | ok r =>
      rw [hc] at h
      exact (ih h).trans (stations_processCell hc)

theorem stations_imputeStations {nb : NbrMap} {t : String} {ncols : Nat} :
    ∀ (ss : List String) {g : Slice} {log : List LogEntry} {g2 : Slice} {log2 : List LogEntry},
    imputeStations nb t ncols ss g log = Except.ok (g2, log2) →
    g2.map (fun r => r.1) = g.map (fun r => r.1) := by
  intro ss
  induction ss with
  | nil =>
    intro g log g2 log2 h
    simp only [imputeStations, Except.ok.injEq, Prod.mk.injEq] at h
    rw [← h.1]
  | cons s ss ih =>
    intro g log g2 log2 h
    simp only [imputeStations] at h
    cases hc : processCols nb t s (List.range ncols) g log with
    | error e => rw [hc] at h; cases h
    | ok r =>
      rw [hc] at h
      exact (ih h).trans (stations_processCols (List.range ncols) hc)

theorem stations_imputeSlice {nb : NbrMap} {t : String} {ncols : Nat} {g : Slice}
    {g2 : Slice} {log2 : List LogEntry}
    (h : imputeSlice nb t ncols g = Except.ok (g2, log2)) :
    g2.map (fun r => r.1) = g.map (fun r => r.1) := by
  unfold imputeSlice at h
  exact stations_imputeStations (g.map (fun r => r.1)) h

/-! ## Result-assembler lemmas (claim C6) -/

theorem runController_spec {nb : NbrMap} {ncols : Nat} :
    ∀ (gs : List (String × Slice)) (res : List (String × Slice × List LogEntry)),
    runController nb ncols gs = Except.ok res →
    List.Forall₂ (fun (p : String × Slice) (r : String × Slice × List LogEntry) =>
      r.1 = p.1 ∧ r.2.1.map (fun x => x.1) = p.2.map (fun x => x.1)) gs res := by
  intro gs
  induction gs with
  | nil =>
    intro res h
    simp only [runController, Except.ok.injEq] at h
    rw [← h]
    exact List.Forall₂.nil
  | cons p ps ih =>
    intro res h
    simp only [runController] at h
    cases hs : imputeSlice nb p.1 ncols p.2 with
    | error e => rw [hs] at h; cases h
    | ok r =>
      rw [hs] at h
      cases hr : runController nb ncols ps with
      | error e => rw [hr] at h; cases h
      | ok rest =>
        rw [hr] at h
        simp only [Except.ok.injEq] at h
        rw [← h]
        exact List.Forall₂.cons ⟨rfl, stations_imputeSlice hs⟩ (ih rest hr)

theorem concat_pairs :
    ∀ {gs : List (String × Slice)} {res : List (String × Slice × List LogEntry)},
    List.Forall₂ (fun (p : String × Slice) (r : String × Slice × List LogEntry) =>
      r.1 = p.1 ∧ r.2.1.map (fun x => x.1) = p.2.map (fun x => x.1)) gs res →
    (concatSlices res).map (fun r => (r.1, r.2.1))
      = gs.flatMap (fun p => p.2.map (fun x => (x.1, p.1))) := by
  intro gs res h
  induction h with
  | nil => rfl
  | cons hpr hrest ih =>
    rename_i p r ps rs
    show ((r.2.1.map (fun x => (x.1, r.1, x.2)) ++ concatSlices rs).map (fun r => (r.1, r.2.1)))
      = (p.2.map (fun x => (x.1, p.1)) ++ ps.flatMap (fun p => p.2.map (fun x => (x.1, p.1))))
    rw [List.map_append, ih]
    congr 1
    rw [List.map_map]
    have h1 : r.2.1.map (fun x => (x.1, r.1)) = p.2.map (fun x => (x.1, p.1)) := by
      have h2 : (r.2.1.map (fun x => x.1)).map (fun s => (s, r.1))
          = (p.2.map (fun x => x.1)).map (fun s => (s, p.1)) := by
        rw [hpr.2, hpr.1]
      rw [List.map_map, List.map_map] at h2
      exact h2
    exact h1

theorem filter_key_single (meta : List (String × StationGeo)) (k : String)
    (h : (meta.map (fun m => m.1)).Nodup) :
    meta.filter (fun m => m.1 == k) = []
    ∨ ∃ m, meta.filter (fun m => m.1 == k) = [m] := by
  induction meta with
  | nil => exact Or.inl rfl
  | cons a ms ih =>
    rw [List.map_cons, List.nodup_cons] at h
    by_cases ha : a.1 = k
    · refine Or.inr ⟨a, ?_⟩
      have hrest : ms.filter (fun m => m.1 == k) = [] := by
        refine List.filter_eq_nil_iff.mpr ?_
        intro m hm
        intro hmk
        have hm1 : m.1 = k := by simpa using hmk
        refine absurd ?_ h.1
        rw [ha, ← hm1]
        exact List.mem_map.mpr ⟨m, hm, rfl⟩
      simp [List.filter_cons, ha, hrest]
    · have ha' : (a.1 == k) = false := by simpa using ha
      rw [List.filter_cons, ha']
      exact ih h.2

theorem mergeLeft_pairs (rows : List (String × String × Row))
    (meta : List (String × StationGeo)) (hmeta : (meta.map (fun m => m.1)).Nodup) :
    (mergeLeft rows meta).map (fun r => (r.sid, r.time)) = rows.map (fun r => (r.1, r.2.1)) := by
  induction rows with
  | nil => rfl
  | cons r rest ih =>
    show ((match meta.filter (fun m => m.1 == r.1) with
      | [] => [OutRow.mk r.1 r.2.1 r.2.2 none]
      | ms => ms.map (fun m => OutRow.mk r.1 r.2.1 r.2.2 (some m.2)))
        ++ mergeLeft rest meta).map (fun r => (r.sid, r.time))
      = (r.1, r.2.1) :: rest.map (fun r => (r.1, r.2.1))
    rcases filter_key_single meta r.1 hmeta with hf | ⟨m, hf⟩ <;>
      rw [hf] <;> simp [ih]

theorem flatMap_congr_mem (l : List α) (f g : α → List β)
    (h : ∀ a ∈ l, f a = g a) : l.flatMap f = l.flatMap g := by
  induction l with
  | nil => rfl
  | cons a as ih =>
    rw [List.flatMap_cons, List.flatMap_cons, h a (List.mem_cons_self a as),
        ih (fun b hb => h b (List.mem_cons_of_mem a hb))]

theorem flatMap_pull_cons [DecidableEq α] (ts : List α) (τ : α) (hnd : ts.Nodup)
    (hτ : τ ∈ ts) (x : β) (f : α → List β) :
    List.Perm (ts.flatMap (fun t => if t = τ then x :: f t else f t)) (x :: ts.flatMap f) := by
  induction ts with
  | nil => cases hτ
  | cons a as ih =>
    rw [List.nodup_cons] at hnd
    rw [List.flatMap_cons, List.flatMap_cons]
    by_cases ha : a = τ
    · subst ha
      rw [if_pos rfl]
      have hrest : as.flatMap (fun t => if t = a then x :: f t else f t) = as.flatMap f := by
        refine flatMap_congr_mem as _ _ ?_
        intro t ht
        have hta : ¬ (t = a) := by
          intro e
          subst e
          exact hnd.1 ht
        rw [if_neg hta]
      rw [hrest, List.cons_append]
    · rw [if_neg ha]
      have hτ' : τ ∈ as := by
        rcases List.mem_cons.mp hτ with h' | h'
        · exact absurd h'.symm ha
        · exact h'
      exact ((ih hnd.2 hτ').append_left (f a)).trans List.perm_middle

theorem flatMap_filter_time_perm (flat : List FlatRow) (ts : List String)
    (hnd : ts.Nodup) (hcov : ∀ r ∈ flat, ∀ t, r.time = some t → t ∈ ts) :
    List.Perm
      (ts.flatMap (fun t => (flat.filter (fun r => r.time == some t)).map (fun r => (r.sid, t))))
      (flat.filterMap (fun r => r.time.map (fun t => (r.sid, t)))) := by
  induction flat with
  | nil => simp
  | cons r rest ih =>
    have ihr := ih (fun r2 h2 t ht => hcov r2 (List.mem_cons_of_mem r h2) t ht)
    cases hr : r.time with
    | none =>
      have hblocks : ∀ t ∈ ts,
          ((r :: rest).filter (fun r => r.time == some t)).map (fun x => (x.sid, t))
            = (rest.filter (fun r => r.time == some t)).map (fun x => (x.sid, t)) := by
        intro t _
        rw [List.filter_cons]
        have : (r.time == some t) = false := by rw [hr]; rfl
        rw [this]
        simp
      rw [flatMap_congr_mem ts _ _ hblocks]
      have hfm : List.filterMap (fun r => Option.map (fun t => (r.sid, t)) r.time) (r :: rest)
          = List.filterMap (fun r => Option.map (fun t => (r.sid, t)) r.time) rest := by
        rw [List.filterMap_cons, hr]
        rfl
      rw [hfm]
      exact ihr
    | some τ =>
      have hτ : τ ∈ ts := hcov r (List.mem_cons_self r rest) τ hr
      have hblocks : ∀ t ∈ ts,
          ((r :: rest).filter (fun r => r.time == some t)).map (fun x => (x.sid, t))
            = (if t = τ then ((r.sid, τ)) ::
                (rest.filter (fun r => r.time == some t)).map (fun x => (x.sid, t))
              else (rest.filter (fun r => r.time == some t)).map (fun x => (x.sid, t))) := by
        intro t _
        rw [List.filter_cons]
        by_cases htτ : t = τ
        · subst htτ
          have hb : (r.time == some t) = true := by
            rw [hr]
            exact beq_self_eq_true _
          rw [hb, if_pos rfl]
          simp
        · have hb : (r.time == some t) = false := by
            rw [hr]
            simpa using fun e => htτ e.symm
          rw [hb, if_neg htτ]
          simp
      rw [flatMap_congr_mem ts _ _ hblocks]
      refine (flatMap_pull_cons ts τ hnd hτ (r.sid, τ) _).trans ?_
      rw [List.filterMap_cons, hr]
      exact ihr.cons (r.sid, τ)

theorem flatMap_map_comp (l : List α) (f : α → γ) (g : γ → List β) :
    (l.map f).flatMap g = l.flatMap (fun a => g (f a)) := by
  induction l with
  | nil => rfl
  | cons a as ih => simp only [List.map_cons, List.flatMap_cons, ih]

/-- Claim C6 as amended: over inputs the source actually supports (at most
one metadata row per station, no duplicate station within a time slice), the
assembler conserves exactly the rows with a **non-null** timestamp: the
output's `(StationID, Timestamp)` pairs are a permutation of the flattened
input's non-null pairs, each appearing exactly once.  Rows with a null
timestamp are dropped by the partition (`groupby` discards null keys), and a
station with several metadata rows would duplicate its output rows in the
left join. -/
theorem c6_amended_row_conservation (nb : NbrMap) (ncols : Nat)
    (meta : List (String × StationGeo)) (flat : List FlatRow) (out : List OutRow)
    (hmeta : (meta.map (fun m => m.1)).Nodup)
    (hsl : ∀ t : String,
      ((flat.filter (fun r => r.time == some t)).map (fun r => r.sid)).Nodup)
    (hok : assembleMain nb ncols meta flat = Except.ok out) :
    List.Perm (out.map (fun r => (r.sid, r.time)))
              (flat.filterMap (fun r => r.time.map (fun t => (r.sid, t)))) := by
  unfold assembleMain at hok
  cases hrc : runController nb ncols (groupsOf flat) with
  | error e => rw [hrc] at hok; cases hok
  | ok results =>
    rw [hrc] at hok
    simp only [Except.ok.injEq] at hok
    rw [← hok]
    rw [mergeLeft_pairs _ _ hmeta]
    rw [concat_pairs (runController_spec _ _ hrc)]
    have hgroups : (groupsOf flat).flatMap (fun p => p.2.map (fun x => (x.1, p.1)))
        = (sliceTimes flat).flatMap
            (fun t => (flat.filter (fun r => r.time == some t)).map (fun r => (r.sid, t))) := by
      unfold groupsOf
      rw [flatMap_map_comp]
      refine flatMap_congr_mem _ _ _ ?_
      intro t _
      unfold sliceOf
      rw [List.map_map]
      rfl
    rw [hgroups]
    refine flatMap_filter_time_perm flat (sliceTimes flat) ?_ ?_
    · exact ((insSort_perm _ _).nodup_iff).mpr (List.nodup_dedup _)
    · intro r hr t ht
      unfold sliceTimes
      rw [mem_insSort]
      exact List.mem_dedup.mpr (List.mem_filterMap.mpr ⟨r, hr, ht⟩)

theorem c6_amended_witness :
    (((([("A", StationGeo.mk none none none)]).map (fun m => m.1)).Nodup
      ∧ (∀ t : String, ((([(⟨"A", some "t1", [some (CellVal.num 1)]⟩ : FlatRow)]).filter
            (fun r => r.time == some t)).map (fun r => r.sid)).Nodup)
      ∧ assembleMain [] 1 [("A", StationGeo.mk none none none)]
          [⟨"A", some "t1", [some (CellVal.num 1)]⟩]
          = Except.ok [⟨"A", "t1", [some (CellVal.num 1)], some (StationGeo.mk none none none)⟩])
    ∧ List.Perm
        (([(⟨"A", "t1", [some (CellVal.num 1)], some (StationGeo.mk none none none)⟩ : OutRow)]).map
          (fun r => (r.sid, r.time)))
        (([(⟨"A", some "t1", [some (CellVal.num 1)]⟩ : FlatRow)]).filterMap
          (fun r => r.time.map (fun t => (r.sid, t))))) := by
  have h1 : (([("A", StationGeo.mk none none none)]).map (fun m => m.1)).Nodup := by decide
  have h2 : ∀ t : String, ((([(⟨"A", some "t1", [some (CellVal.num 1)]⟩ : FlatRow)]).filter
      (fun r => r.time == some t)).map (fun r => r.sid)).Nodup := by
    intro t
    rw [List.filter_cons]
    split <;> simp
  have h3 : assembleMain [] 1 [("A", StationGeo.mk none none none)]
      [⟨"A", some "t1", [some (CellVal.num 1)]⟩]
      = Except.ok [⟨"A", "t1", [some (CellVal.num 1)], some (StationGeo.mk none none none)⟩] := by
    rfl
  exact ⟨⟨h1, h2, h3⟩,
    c6_amended_row_conservation [] 1 [("A", StationGeo.mk none none none)]
      [⟨"A", some "t1", [some (CellVal.num 1)]⟩]
      [⟨"A", "t1", [some (CellVal.num 1)], some (StationGeo.mk none none none)⟩] h1 h2 h3⟩

/-! ## Column-local transport lemmas (claim C1)

One cell's decision reads only the column view of the slice; writing one cell
changes no other cell.  These lemmas let the per-cell outcome be stated
against the slice state at the moment the cell's station comes up. -/

theorem valAt_congr {g1 g2 : Slice} {c : Nat} {s : String}
    (h : colCell g1 c s = colCell g2 c s) : valAt g1 s c = valAt g2 s c := by
  unfold colCell at h
  unfold valAt
  cases h1 : rowOf g1 s with
  | none =>
    rw [h1] at h
    cases h2 : rowOf g2 s with
    | none => rfl
    | some row2 => rw [h2] at h; cases h
  | some row1 =>
    rw [h1] at h
    cases h2 : rowOf g2 s with
    | none => rw [h2] at h; cases h
    | some row2 =>
      rw [h2] at h
      simpa using h

theorem rowOf_cons (x : String × Row) (l : Slice) (s2 : String) :
    rowOf (x :: l) s2 = if x.1 = s2 then some x.2 else rowOf l s2 := by
  unfold rowOf
  rw [List.find?_cons]
  by_cases h : x.1 = s2
  · have hb : (x.1 == s2) = true := by simpa using h
    rw [hb, if_pos h]
    rfl
  · have hb : (x.1 == s2) = false := by simpa using h
    rw [hb, if_neg h]

theorem scanNbrs_congr {g1 g2 : Slice} {c : Nat}
    (hcv : ∀ s2, colCell g1 c s2 = colCell g2 c s2) :
    ∀ (nbrs : List (String × ℚ)) (acc : List (String × ℚ)),
    scanNbrs g1 c nbrs acc = scanNbrs g2 c nbrs acc := by
  intro nbrs
  induction nbrs with
  | nil => intro acc; rfl
  | cons nd rest ih =>
    intro acc
    obtain ⟨s2, d⟩ := nd
    have h := hcv s2
    unfold colCell at h
    cases h1 : rowOf g1 s2 with
    | none =>
      cases h2 : rowOf g2 s2 with
      | none =>
        simp only [scanNbrs, h1, h2]
        exact ih acc
      | some row2 => rw [h1, h2] at h; cases h
    | some row1 =>
      cases h2 : rowOf g2 s2 with
      | none => rw [h1, h2] at h; cases h
      | some row2 =>
        rw [h1, h2] at h
        have hgd : row1.getD c none = row2.getD c none := by simpa using h
        simp only [scanNbrs, h1, h2, hgd]
        cases hv : row2.getD c none with
        | none =>
          by_cases hlen : MIN_NEIGHBORS ≤ acc.length
          · rw [if_pos hlen, if_pos hlen]
          · rw [if_neg hlen, if_neg hlen]
            exact ih acc
        | some v =>
          by_cases hlen : MIN_NEIGHBORS ≤ (acc ++ [(s2, d)]).length
          · rw [if_pos hlen, if_pos hlen]
          · rw [if_neg hlen, if_neg hlen]
            exact ih (acc ++ [(s2, d)])

theorem candsOf_congr {g1 g2 : Slice} {c : Nat}
    (hcv : ∀ s2, colCell g1 c s2 = colCell g2 c s2) (avail : List (String × ℚ)) :
    candsOf g1 c avail = candsOf g2 c avail := by
  unfold candsOf
  refine List.map_congr_left ?_
  intro p _
  rw [valAt_congr (hcv p.1)]

theorem rowOf_setCell (g : Slice) (s : String) (c : Nat) (v : Cell) (s2 : String) :
    rowOf (setCell g s c v) s2
      = if s2 = s then (rowOf g s2).map (fun row => row.set c v)
        else rowOf g s2 := by
  induction g with
  | nil => by_cases h : s2 = s <;> simp [rowOf, setCell, h]
  | cons r g ih =>
    by_cases hrs : r.1 = s
    · have hsc : setCell (r :: g) s c v = (r.1, r.2.set c v) :: setCell g s c v := by
        simp [setCell, hrs]
      rw [hsc, rowOf_cons, rowOf_cons]
      by_cases hr2 : r.1 = s2
      · have he : s2 = s := hr2.symm.trans hrs
        rw [if_pos hr2, if_pos hr2, if_pos he]
        rfl
      · have hns : ¬ (s2 = s) := fun e => hr2 (hrs.trans e.symm)
        rw [if_neg hr2, if_neg hr2, if_neg hns, ih, if_neg hns]
    · have hsc : setCell (r :: g) s c v = r :: setCell g s c v := by
        simp [setCell, hrs]
      rw [hsc, rowOf_cons, rowOf_cons]
      by_cases hr2 : r.1 = s2
      · have hns : ¬ (s2 = s) := fun e => hrs (hr2.trans e)
        rw [if_pos hr2, if_pos hr2, if_neg hns]
      · rw [if_neg hr2, if_neg hr2, ih]

theorem getD_set_ne (l : Row) (i j : Nat) (a : Cell) (h : i ≠ j) :
    (l.set i a).getD j none = l.getD j none := by
  simp [List.getD, List.getElem?_set_ne h]

theorem colCell_setCell_ne (g : Slice) (s : String) (c0 c : Nat) (v : Cell)
    (hne : c ≠ c0) (s2 : String) :
    colCell (setCell g s c0 v) c s2 = colCell g c s2 := by
  unfold colCell
  rw [rowOf_setCell]
  by_cases hs2 : s2 = s
  · rw [if_pos hs2]
    cases hrow : rowOf g s2 with
    | none => rfl
    | some row =>
      show some ((row.set c0 v).getD c none) = some (row.getD c none)
      rw [getD_set_ne row c0 c v (fun e => hne e.symm)]
  · rw [if_neg hs2]

theorem valAt_setCell_self (g : Slice) (s : String) (c : Nat) (v : Cell)
    (row : Row) (hrow : rowOf g s = some row) (hc : c < row.length) :
    valAt (setCell g s c v) s c = v := by
  unfold valAt
  rw [rowOf_setCell, if_pos rfl, hrow]
  show (row.set c v).getD c none = v
  simp [List.getD, List.getElem?_set_self hc]

theorem rowOf_ne_processCell {nb : NbrMap} {t : String} {g : Slice} {s : String} {c0 : Nat}
    {log : List LogEntry} {g2 : Slice} {log2 : List LogEntry}
    (h : processCell nb t g s c0 log = Except.ok (g2, log2))
    (s2 : String) (hne : s2 ≠ s) :
    rowOf g2 s2 = rowOf g s2 := by
  rcases processCell_cases h with ⟨_, rfl, _⟩ | ⟨_, _, rfl, _⟩ | ⟨_, _, cands, _, rfl, _⟩
  · rfl
  · rfl
  · rw [rowOf_setCell, if_neg hne]

theorem colCell_processCell_ne {nb : NbrMap} {t : String} {g : Slice} {s : String} {c0 : Nat}
    {log : List LogEntry} {g2 : Slice} {log2 : List LogEntry}
    (h : processCell nb t g s c0 log = Except.ok (g2, log2))
    (c : Nat) (hne : c ≠ c0) (s2 : String) :
    colCell g2 c s2 = colCell g c s2 := by
  rcases processCell_cases h with ⟨_, rfl, _⟩ | ⟨_, _, rfl, _⟩ | ⟨_, _, cands, _, rfl, _⟩
  · rfl
  · rfl
  · exact colCell_setCell_ne g s c0 c _ hne s2

theorem rowOf_self_processCell {nb : NbrMap} {t : String} {g : Slice} {s : String} {c0 : Nat}
    {log : List LogEntry} {g2 : Slice} {log2 : List LogEntry}
    (h : processCell nb t g s c0 log = Except.ok (g2, log2))
    (row : Row) (hrow : rowOf g s = some row) :
    ∃ row2, rowOf g2 s = some row2 ∧ row2.length = row.length := by
  rcases processCell_cases h with ⟨_, rfl, _⟩ | ⟨_, _, rfl, _⟩ | ⟨_, _, cands, _, rfl, _⟩
  · exact ⟨row, hrow, rfl⟩
  · exact ⟨row, hrow, rfl⟩
  · refine ⟨row.set c0 ((estimateIDW cands).map CellVal.num), ?_, List.length_set ..⟩
    rw [rowOf_setCell, if_pos rfl, hrow]
    rfl

theorem rowOf_ne_processCols {nb : NbrMap} {t : String} {s : String} :
    ∀ (cs : List Nat) {g : Slice} {log : List LogEntry} {gS : Slice} {logS : List LogEntry},
    processCols nb t s cs g log = Except.ok (gS, logS) →
    ∀ s2, s2 ≠ s → rowOf gS s2 = rowOf g s2 := by
  intro cs
  induction cs with
  | nil =>
    intro g log gS logS h s2 _
    simp only [processCols, Except.ok.injEq, Prod.mk.injEq] at h
    rw [← h.1]
  | cons c cs ih =>
    intro g log gS logS h s2 hne
    simp only [processCols] at h
    cases hc : processCell nb t g s c log with
    | error e => rw [hc] at h; cases h
    | ok r =>
      rw [hc] at h
      exact (ih h s2 hne).trans (rowOf_ne_processCell hc s2 hne)

theorem rowOf_ne_imputeStations {nb : NbrMap} {t : String} {ncols : Nat} :
    ∀ (ss : List String) {g : Slice} {log : List LogEntry} {g2 : Slice} {log2 : List LogEntry},
    imputeStations nb t ncols ss g log = Except.ok (g2, log2) →
    ∀ s2, s2 ∉ ss → rowOf g2 s2 = rowOf g s2 := by
  intro ss
  induction ss with
  | nil =>
    intro g log g2 log2 h s2 _
    simp only [imputeStations, Except.ok.injEq, Prod.mk.injEq] at h
    rw [← h.1]
  | cons s ss ih =>
    intro g log g2 log2 h s2 hne
    simp only [imputeStations] at h
    cases hc : processCols nb t s (List.range ncols) g log with
    | error e => rw [hc] at h; cases h
    | ok r =>
      rw [hc] at h
      have hne1 : s2 ≠ s := fun e => hne (e ▸ List.mem_cons_self s ss)
      have hne2 : s2 ∉ ss := fun m => hne (List.mem_cons_of_mem s m)
      exact (ih h s2 hne2).trans (rowOf_ne_processCols (List.range ncols) hc s2 hne1)

theorem imputeStations_append (nb : NbrMap) (t : String) (ncols : Nat) :
    ∀ (l1 l2 : List String) (g : Slice) (log : List LogEntry),
    imputeStations nb t ncols (l1 ++ l2) g log
      = match imputeStations nb t ncols l1 g log with
        | Except.error e => Except.error e
        | Except.ok r => imputeStations nb t ncols l2 r.1 r.2 := by
  intro l1
  induction l1 with
  | nil => intro l2 g log; rfl
  | cons s ss ih =>
    intro l2 g log
    show imputeStations nb t ncols (s :: (ss ++ l2)) g log = _
    simp only [imputeStations]
    cases hc : processCols nb t s (List.range ncols) g log with
    | error e => rfl
    | ok r => exact ih l2 r.1 r.2

theorem count_append_zero (log ext : List LogEntry) (e : LogEntry) (h : e ∉ ext) :
    (log ++ ext).count e = log.count e := by
  rw [List.count_append, List.count_eq_zero.mpr h, Nat.add_zero]

/-- The per-column specification of one station's pass (source line 138's
inner loop): every column outside the processed set is untouched; the log
grows only by entries of this station's processed columns; and each
processed column's outcome is decided by the scan against the slice state at
the start of the station's pass (earlier columns of the same station do not
affect a later column's scan, which reads only its own column).  At quorum
the cell ends up holding the division result — the numeric estimate, or
`none` again when the weight sum was zero (the silent nan write) — and the
log is unchanged either way. -/
theorem processCols_spec (nb : NbrMap) (t : String) (s : String) :
    ∀ (cs : List Nat) (g : Slice) (log : List LogEntry) (gS : Slice) (logS : List LogEntry)
      (row : Row),
    processCols nb t s cs g log = Except.ok (gS, logS) →
    cs.Nodup →
    rowOf g s = some row →
    (∀ c ∈ cs, c < row.length) →
    ((∀ c, c ∉ cs → valAt gS s c = valAt g s c)
     ∧ (∃ ext, logS = log ++ ext ∧ ∀ e ∈ ext, ∃ c, c ∈ cs ∧ e = (t, s, c))
     ∧ (∀ c ∈ cs,
        (valAt g s c ≠ none →
           valAt gS s c = valAt g s c ∧ logS.count (t, s, c) = log.count (t, s, c))
        ∧ (valAt g s c = none →
           ((scanNbrs g c (nbGet nb s) []).length < MIN_NEIGHBORS →
              valAt gS s c = none
              ∧ logS.count (t, s, c) = log.count (t, s, c) + 1)
           ∧ (MIN_NEIGHBORS ≤ (scanNbrs g c (nbGet nb s) []).length →
              (∃ cands, numCands (candsOf g c (scanNbrs g c (nbGet nb s) []))
                  = some cands
                  ∧ valAt gS s c = (estimateIDW cands).map CellVal.num)
              ∧ logS.count (t, s, c) = log.count (t, s, c))))) := by
  intro cs
  induction cs with
  | nil =>
    intro g log gS logS row h _ _ _
    simp only [processCols, Except.ok.injEq, Prod.mk.injEq] at h
    obtain ⟨h1, h2⟩ := h
    subst h1
    subst h2
    refine ⟨fun c _ => rfl, ⟨[], by simp, by intro e he; cases he⟩, ?_⟩
    intro c hc
    cases hc
  | cons c0 cs ih =>
    intro g log gS logS row h hnd hrow hlen
    rw [List.nodup_cons] at hnd
    simp only [processCols] at h
    cases hc : processCell nb t g s c0 log with
    | error e => rw [hc] at h; cases h
    | ok r =>
      rw [hc] at h
      obtain ⟨row1, hrow1, hlen1⟩ := rowOf_self_processCell hc row hrow
      have hlen1' : ∀ c ∈ cs, c < row1.length := by
        intro c m
        rw [hlen1]
        exact hlen c (List.mem_cons_of_mem c0 m)
      obtain ⟨IHa, ⟨ext, hext, hextmem⟩, IHc⟩ :=
        ih r.1 r.2 gS logS row1 h hnd.2 hrow1 hlen1'
      have hcv : ∀ c, c ≠ c0 → ∀ s2, colCell r.1 c s2 = colCell g c s2 := by
        intro c hcne s2
        exact colCell_processCell_ne hc c hcne s2
      have hval : ∀ c, c ≠ c0 → valAt r.1 s c = valAt g s c := by
        intro c hcne
        exact valAt_congr (hcv c hcne s)
      have hscan : ∀ c, c ≠ c0 →
          scanNbrs r.1 c (nbGet nb s) [] = scanNbrs g c (nbGet nb s) [] := by
        intro c hcne
        exact scanNbrs_congr (hcv c hcne) _ _
      have hcands : ∀ c, c ≠ c0 → ∀ avail, candsOf r.1 c avail = candsOf g c avail := by
        intro c hcne avail
        exact candsOf_congr (hcv c hcne) avail
      have hcntS : ∀ c, c ∉ cs → logS.count (t, s, c) = r.2.count (t, s, c) := by
        intro c hcn
        rw [hext]
        refine count_append_zero _ _ _ ?_
        intro hm
        obtain ⟨c2, hc2, he2⟩ := hextmem _ hm
        have : c = c2 := by
          have := he2
          simp only [Prod.mk.injEq] at this
          exact this.2.2
        exact hcn (this ▸ hc2)
      have hlog_cases : r.2 = log ∨ r.2 = log ++ [(t, s, c0)] := by
        rcases processCell_cases hc with ⟨_, _, hl⟩ | ⟨_, _, _, hl⟩ | ⟨_, _, _, _, _, hl⟩
        · exact Or.inl hl
        · exact Or.inr hl
        · exact Or.inl hl
      have hcnt_head : ∀ c, c ≠ c0 → r.2.count (t, s, c) = log.count (t, s, c) := by
        intro c hcne
        rcases hlog_cases with hl | hl
        · rw [hl]
        · rw [hl]
          refine count_append_zero _ _ _ ?_
          intro hm
          rcases List.mem_singleton.mp hm with he
          simp only [Prod.mk.injEq] at he
          exact hcne he.2.2
      refine ⟨?_, ?_, ?_⟩
      · intro c hcn
        have hcne : c ≠ c0 := fun e => hcn (e ▸ List.mem_cons_self c0 cs)
        have hcn2 : c ∉ cs := fun m => hcn (List.mem_cons_of_mem c0 m)
        rw [IHa c hcn2, hval c hcne]
      · rcases hlog_cases with hl | hl
        · refine ⟨ext, by rw [hext, hl], ?_⟩
          intro e he
          obtain ⟨c2, hc2, he2⟩ := hextmem e he
          exact ⟨c2, List.mem_cons_of_mem c0 hc2, he2⟩
        · refine ⟨(t, s, c0) :: ext, by rw [hext, hl, List.append_assoc]; rfl, ?_⟩
          intro e he
          rcases List.mem_cons.mp he with rfl | he
          · exact ⟨c0, List.mem_cons_self c0 cs, rfl⟩
          · obtain ⟨c2, hc2, he2⟩ := hextmem e he
            exact ⟨c2, List.mem_cons_of_mem c0 hc2, he2⟩
      · intro c hcmem
        rcases List.mem_cons.mp hcmem with rfl | hcs
        · -- the head column itself
          have hcntS0 : logS.count (t, s, c) = r.2.count (t, s, c) := hcntS c hnd.1
          rcases processCell_cases hc with ⟨⟨v0, hv0⟩, hg1, hlog1⟩
            | ⟨hv0, hq, hg1, hlog1⟩ | ⟨hv0, hq, cands, hnum0, hg1, hlog1⟩
          · constructor
            · intro _
              constructor
              · rw [IHa c hnd.1, hg1]
              · rw [hcntS0, hlog1]
            · intro hnone
              rw [hv0] at hnone
              cases hnone
          · constructor
            · intro hsome
              exact absurd hv0 hsome
            · intro _
              constructor
              · intro _
                constructor
                · rw [IHa c hnd.1, hg1, hv0]
                · rw [hcntS0, hlog1, List.count_append]
                  simp
              · intro hq2
                exact absurd hq2 (Nat.not_le_of_lt hq)
          · constructor
            · intro hsome
              exact absurd hv0 hsome
            · intro _
              constructor
              · intro hlt
                exact absurd hq (Nat.not_le_of_lt hlt)
              · intro _
                constructor
                · refine ⟨cands, hnum0, ?_⟩
                  rw [IHa c hnd.1, hg1]
                  exact valAt_setCell_self g s c _ row hrow
                    (hlen c (List.mem_cons_self c cs))
                · rw [hcntS0, hlog1]
        · have hcne : c ≠ c0 := fun e => hnd.1 (e ▸ hcs)
          have hIH := IHc c hcs
          constructor
          · intro hsome
            have hsome1 : valAt r.1 s c ≠ none := by
              rw [hval c hcne]
              exact hsome
            obtain ⟨hv1, hcnt1⟩ := hIH.1 hsome1
            constructor
            · rw [hv1, hval c hcne]
            · rw [hcnt1, hcnt_head c hcne]
          · intro hnone
            have hnone1 : valAt r.1 s c = none := by
              rw [hval c hcne]
              exact hnone
            have hIH2 := hIH.2 hnone1
            constructor
            · intro hlt
              rw [← hscan c hcne] at hlt
              obtain ⟨hv1, hcnt1⟩ := hIH2.1 hlt
              exact ⟨hv1, by rw [hcnt1, hcnt_head c hcne]⟩
            · intro hge
              rw [← hscan c hcne] at hge
              obtain ⟨⟨cands, hnum1, hv1⟩, hcnt1⟩ := hIH2.2 hge
              refine ⟨⟨cands, ?_, hv1⟩, by rw [hcnt1, hcnt_head c hcne]⟩
              rw [← hcands c hcne, ← hscan c hcne]
              exact hnum1

theorem log_ext_processCols {nb : NbrMap} {t : String} {s : String} :
    ∀ (cs : List Nat) {g : Slice} {log : List LogEntry} {gS : Slice} {logS : List LogEntry},
    processCols nb t s cs g log = Except.ok (gS, logS) →
    ∃ ext, logS = log ++ ext ∧ ∀ e ∈ ext, ∃ c, e = (t, s, c) := by
  intro cs
  induction cs with
  | nil =>
    intro g log gS logS h
    simp only [processCols, Except.ok.injEq, Prod.mk.injEq] at h
    exact ⟨[], by rw [← h.2]; simp, by intro e he; cases he⟩
  | cons c0 cs ih =>
    intro g log gS logS h
    simp only [processCols] at h
    cases hc : processCell nb t g s c0 log with
    | error e => rw [hc] at h; cases h
    | ok r =>
      rw [hc] at h
      obtain ⟨ext, hext, hmem⟩ := ih h
      have hlog_cases : r.2 = log ∨ r.2 = log ++ [(t, s, c0)] := by
        rcases processCell_cases hc with ⟨_, _, hl⟩ | ⟨_, _, _, hl⟩ | ⟨_, _, _, _, _, hl⟩
        · exact Or.inl hl
        · exact Or.inr hl
        · exact Or.inl hl
      rcases hlog_cases with hl | hl
      · exact ⟨ext, by rw [hext, hl], hmem⟩
      · refine ⟨(t, s, c0) :: ext, by rw [hext, hl, List.append_assoc]; rfl, ?_⟩
        intro e he
        rcases List.mem_cons.mp he with rfl | he
        · exact ⟨c0, rfl⟩
        · exact hmem e he

theorem log_ext_imputeStations {nb : NbrMap} {t : String} {ncols : Nat} :
    ∀ (ss : List String) {g : Slice} {log : List LogEntry} {g2 : Slice} {log2 : List LogEntry},
    imputeStations nb t ncols ss g log = Except.ok (g2, log2) →
    ∃ ext, log2 = log ++ ext ∧ ∀ e ∈ ext, ∃ s2 c2, s2 ∈ ss ∧ e = (t, s2, c2) := by
  intro ss
  induction ss with
  | nil =>
    intro g log g2 log2 h
    simp only [imputeStations, Except.ok.injEq, Prod.mk.injEq] at h
    exact ⟨[], by rw [← h.2]; simp, by intro e he; cases he⟩
  | cons s ss ih =>
    intro g log g2 log2 h
    simp only [imputeStations] at h
    cases hc : processCols nb t s (List.range ncols) g log with
    | error e => rw [hc] at h; cases h
    | ok r =>
      rw [hc] at h
      obtain ⟨ext1, hext1, hmem1⟩ := log_ext_processCols (List.range ncols) hc
      obtain ⟨ext2, hext2, hmem2⟩ := ih h
      refine ⟨ext1 ++ ext2, by rw [hext2, hext1, List.append_assoc], ?_⟩
      intro e he
      rcases List.mem_append.mp he with he | he
      · obtain ⟨c, rfl⟩ := hmem1 e he
        exact ⟨s, c, List.mem_cons_self s ss, rfl⟩
      · obtain ⟨s2, c2, hs2, rfl⟩ := hmem2 e he
        exact ⟨s2, c2, List.mem_cons_of_mem s hs2, rfl⟩

theorem rowOf_of_mem_stations (g : Slice) (s : String) (h : s ∈ g.map (fun r => r.1)) :
    ∃ row, rowOf g s = some row ∧ (s, row) ∈ g := by
  induction g with
  | nil => cases h
  | cons r g ih =>
    by_cases hr : r.1 = s
    · refine ⟨r.2, ?_, ?_⟩
      · rw [rowOf_cons, if_pos hr]
      · have : (s, r.2) = r := by
          rw [← hr]
        rw [this]
        exact List.mem_cons_self r g
    · have hmem : s ∈ g.map (fun r => r.1) := by
        rcases List.mem_cons.mp h with h' | h'
        · exact absurd h'.symm hr
        · exact h'
      obtain ⟨row, hrow, hmem2⟩ := ih hmem
      refine ⟨row, ?_, List.mem_cons_of_mem r hmem2⟩
      rw [rowOf_cons, if_neg hr, hrow]

/-- Claim C1 as amended: in a slice with unique station index and well-formed
rows, for every cell `(s, c)` that is missing in the slice, on a run the
worker completes the cell's outcome is decided by the neighbor scan — run
against the slice state `gB` at the moment station `s` comes up in iteration
order, in ascending stored order, counting neighbors that have a row and a
non-missing value in column `c` — as follows.  At quorum (`MIN_NEIGHBORS`
candidates collected) the cell ends up holding the IDW division result of
those candidates and **no** log entry for `(t, s, c)` exists: the cell is
filled when the weight sum is nonzero, but on a zero weight sum the division
result is the silent nan — the cell is **still missing and still unlogged**,
refuting the claimed "filled iff quorum" and "log entry iff left missing".
Under quorum the cell is left missing and exactly one log entry is emitted.
(Completion excludes only genuine crashes: a non-numeric candidate raises
`TypeError`.  Per claim C10 the scan state `gB` includes values imputed for
earlier-iterated stations.) -/
theorem c1_amended_cell_outcomes (nb : NbrMap) (t : String) (ncols : Nat) (g : Slice)
    (i c : Nat) (s : String) (gB : Slice) (logB : List LogEntry)
    (g2 : Slice) (log : List LogEntry)
    (hnd : (g.map (fun r => r.1)).Nodup)
    (hs : (g.map (fun r => r.1))[i]? = some s)
    (hc : c < ncols)
    (hw : ∀ r ∈ g, r.2.length = ncols)
    (hok : imputeSlice nb t ncols g = Except.ok (g2, log))
    (hB : stateBefore nb t ncols g i = Except.ok (gB, logB))
    (hmiss : valAt g s c = none) :
    (MIN_NEIGHBORS ≤ (scanNbrs gB c (nbGet nb s) []).length →
        (∃ cands, numCands (candsOf gB c (scanNbrs gB c (nbGet nb s) [])) = some cands
            ∧ valAt g2 s c = (estimateIDW cands).map CellVal.num)
        ∧ log.count (t, s, c) = 0)
    ∧ ((scanNbrs gB c (nbGet nb s) []).length < MIN_NEIGHBORS →
        valAt g2 s c = none ∧ log.count (t, s, c) = 1) := by
  obtain ⟨hi, hgi⟩ := List.getElem?_eq_some.mp hs
  have hsplit : g.map (fun r => r.1)
      = (g.map (fun r => r.1)).take i ++ s :: (g.map (fun r => r.1)).drop (i + 1) := by
    conv_lhs => rw [← List.take_append_drop i (g.map (fun r => r.1))]
    rw [List.drop_eq_getElem_cons hi, hgi]
  have hnd' := hsplit ▸ hnd
  rw [List.nodup_append] at hnd'
  obtain ⟨-, hnd2, hdisj⟩ := hnd'
  have hs_take : s ∉ (g.map (fun r => r.1)).take i := by
    intro m
    exact hdisj m (List.mem_cons_self _ _)
  have hs_drop : s ∉ (g.map (fun r => r.1)).drop (i + 1) := by
    rw [List.nodup_cons] at hnd2
    exact hnd2.1
  -- decompose the full run at station s
  unfold imputeSlice at hok
  rw [hsplit, imputeStations_append] at hok
  unfold stateBefore at hB
  rw [hB] at hok
  have hok2 : imputeStations nb t ncols (s :: (g.map (fun r => r.1)).drop (i + 1)) gB logB
      = Except.ok (g2, log) := hok
  simp only [imputeStations] at hok2
  cases hpc : processCols nb t s (List.range ncols) gB logB with
  | error e => rw [hpc] at hok2; cases hok2
  | ok rS =>
    rw [hpc] at hok2
    -- the row of s, transported to the prefix state
    have hsmem : s ∈ g.map (fun r => r.1) := List.getElem?_mem hs
    obtain ⟨row, hrow, hrowmem⟩ := rowOf_of_mem_stations g s hsmem
    have hrowlen : row.length = ncols := hw (s, row) hrowmem
    have hrowB : rowOf gB s = rowOf g s :=
      rowOf_ne_imputeStations ((g.map (fun r => r.1)).take i) hB s hs_take
    have hrowB' : rowOf gB s = some row := hrowB.trans hrow
    have hvB : valAt gB s c = valAt g s c := by
      unfold valAt
      rw [hrowB]
    -- the spec of station s's own pass
    obtain ⟨-, -, hcells⟩ := processCols_spec nb t s (List.range ncols) gB logB rS.1 rS.2 row
      hpc (List.nodup_range ncols) hrowB'
      (fun c2 m => by rw [hrowlen]; exact List.mem_range.mp m)
    have hcell := hcells c (List.mem_range.mpr hc)
    have hmissB : valAt gB s c = none := by rw [hvB]; exact hmiss
    have houtS := hcell.2 hmissB
    -- the suffix run does not touch row s or its log entries
    have hrow2 : rowOf g2 s = rowOf rS.1 s :=
      rowOf_ne_imputeStations ((g.map (fun r => r.1)).drop (i + 1)) hok2 s hs_drop
    have hv2 : valAt g2 s c = valAt rS.1 s c := by
      unfold valAt
      rw [hrow2]
    obtain ⟨ext2, hext2, hmem2⟩ :=
      log_ext_imputeStations ((g.map (fun r => r.1)).drop (i + 1)) hok2
    have hcnt2 : log.count (t, s, c) = rS.2.count (t, s, c) := by
      rw [hext2]
      refine count_append_zero _ _ _ ?_
      intro hm
      obtain ⟨s2, c2, hs2, he⟩ := hmem2 _ hm
      simp only [Prod.mk.injEq] at he
      exact hs_drop (he.2.1 ▸ hs2)
    -- the prefix log has no entry for station s
    obtain ⟨ext1, hext1, hmem1⟩ :=
      log_ext_imputeStations ((g.map (fun r => r.1)).take i) hB
    have hcntB : logB.count (t, s, c) = 0 := by
      refine List.count_eq_zero.mpr ?_
      intro hm
      rw [hext1] at hm
      rcases List.mem_append.mp hm with hm | hm
      · cases hm
      · obtain ⟨s2, c2, hs2, he⟩ := hmem1 _ hm
        simp only [Prod.mk.injEq] at he
        exact hs_take (he.2.1 ▸ hs2)
    constructor
    · intro hq
      obtain ⟨⟨cands, hnum, hval⟩, hcnt⟩ := houtS.2 hq
      refine ⟨⟨cands, hnum, by rw [hv2, hval]⟩, ?_⟩
      rw [hcnt2, hcnt, hcntB]
    · intro hlt
      obtain ⟨hval, hcnt⟩ := houtS.1 hlt
      refine ⟨by rw [hv2, hval], ?_⟩
      rw [hcnt2, hcnt, hcntB]

/-- Counterexample to claim C1: the "filled iff quorum" equivalence and the
"exactly one log entry when left missing" clause are both false.  Station
`M`'s missing cell reaches quorum (the scan collects its 3 candidates, first
conjunct), yet because every candidate sits at distance 0 the weight sum is
zero and line 157 writes the silent nan: the worker completes normally, the
cell is still missing in the output, and the log is empty — an unfilled
quorum cell with no log entry. -/
theorem c1_counterexample_quorum_unfilled_unlogged :
    MIN_NEIGHBORS ≤ (scanNbrs
        [("M",[none]), ("B",[some (CellVal.num 1)]), ("C",[some (CellVal.num 2)]),
         ("D",[some (CellVal.num 3)])] 0
        (nbGet [("M", [("B",0),("C",0),("D",0)])] "M") []).length
    ∧ imputeSlice [("M", [("B",0),("C",0),("D",0)])] "t" 1
        [("M",[none]), ("B",[some (CellVal.num 1)]), ("C",[some (CellVal.num 2)]),
         ("D",[some (CellVal.num 3)])]
      = Except.ok ([("M",[none]), ("B",[some (CellVal.num 1)]), ("C",[some (CellVal.num 2)]),
                    ("D",[some (CellVal.num 3)])], [])
    ∧ valAt [("M",[none]), ("B",[some (CellVal.num 1)]), ("C",[some (CellVal.num 2)]),
         ("D",[some (CellVal.num 3)])] "M" 0 = none := by
  refine ⟨?_, ?_, rfl⟩ <;>
  · repeat
    first
    | rfl
    | simp +decide [imputeSlice, imputeStations, processCols, processCell, scanNbrs,
        estimateIDW, numCands, candsOf, idwWeight, setCell, valAt, rowOf, nbGet, MIN_NEIGHBORS,
        IDW_POWER, List.range_succ, List.find?, runController]
    | norm_num

theorem c1_amended_witness :
    ((([("A", [some (CellVal.num 5)]), ("M", [none]), ("B", [some (CellVal.num 7)]),
         ("C", [some (CellVal.num 9)])].map (fun r => r.1)).Nodup
      ∧ ([("A", [some (CellVal.num 5)]), ("M", [none]), ("B", [some (CellVal.num 7)]),
          ("C", [some (CellVal.num 9)])].map (fun r => r.1))[1]? = some "M"
      ∧ 0 < 1
      ∧ (∀ r ∈ [("A", [some (CellVal.num 5)]), ("M", [none]), ("B", [some (CellVal.num 7)]),
           ("C", [some (CellVal.num 9)])], r.2.length = 1)
      ∧ imputeSlice [("M", [("A", 1), ("B", 1), ("C", 2)])] "t" 1
          [("A", [some (CellVal.num 5)]), ("M", [none]), ("B", [some (CellVal.num 7)]),
           ("C", [some (CellVal.num 9)])]
          = Except.ok ([("A", [some (CellVal.num 5)]), ("M", [some (CellVal.num (19/3))]),
              ("B", [some (CellVal.num 7)]), ("C", [some (CellVal.num 9)])], [])
      ∧ stateBefore [("M", [("A", 1), ("B", 1), ("C", 2)])] "t" 1
          [("A", [some (CellVal.num 5)]), ("M", [none]), ("B", [some (CellVal.num 7)]),
           ("C", [some (CellVal.num 9)])] 1
          = Except.ok ([("A", [some (CellVal.num 5)]), ("M", [none]),
              ("B", [some (CellVal.num 7)]), ("C", [some (CellVal.num 9)])], [])
      ∧ valAt [("A", [some (CellVal.num 5)]), ("M", [none]), ("B", [some (CellVal.num 7)]),
          ("C", [some (CellVal.num 9)])] "M" 0 = none)
    ∧ ((MIN_NEIGHBORS ≤ (scanNbrs [("A", [some (CellVal.num 5)]), ("M", [none]),
          ("B", [some (CellVal.num 7)]), ("C", [some (CellVal.num 9)])] 0
          (nbGet [("M", [("A", 1), ("B", 1), ("C", 2)])] "M") []).length →
          (∃ cands, numCands (candsOf [("A", [some (CellVal.num 5)]), ("M", [none]),
              ("B", [some (CellVal.num 7)]), ("C", [some (CellVal.num 9)])] 0
              (scanNbrs [("A", [some (CellVal.num 5)]), ("M", [none]),
                ("B", [some (CellVal.num 7)]), ("C", [some (CellVal.num 9)])] 0
                (nbGet [("M", [("A", 1), ("B", 1), ("C", 2)])] "M") [])) = some cands
              ∧ valAt [("A", [some (CellVal.num 5)]), ("M", [some (CellVal.num (19/3))]),
                  ("B", [some (CellVal.num 7)]), ("C", [some (CellVal.num 9)])] "M" 0
                = (estimateIDW cands).map CellVal.num)
          ∧ ([] : List LogEntry).count ("t", "M", 0) = 0)
        ∧ ((scanNbrs [("A", [some (CellVal.num 5)]), ("M", [none]),
            ("B", [some (CellVal.num 7)]), ("C", [some (CellVal.num 9)])] 0
            (nbGet [("M", [("A", 1), ("B", 1), ("C", 2)])] "M") []).length < MIN_NEIGHBORS →
          valAt [("A", [some (CellVal.num 5)]), ("M", [some (CellVal.num (19/3))]),
              ("B", [some (CellVal.num 7)]), ("C", [some (CellVal.num 9)])] "M" 0 = none
          ∧ ([] : List LogEntry).count ("t", "M", 0) = 1))) := by
  have h1 : (([("A", [some (CellVal.num 5)]), ("M", [none]), ("B", [some (CellVal.num 7)]),
      ("C", [some (CellVal.num 9)])].map (fun r => r.1)).Nodup) := by decide
  have h2 : ([("A", [some (CellVal.num 5)]), ("M", [none]), ("B", [some (CellVal.num 7)]),
      ("C", [some (CellVal.num 9)])].map (fun r => r.1))[1]? = some "M" := by rfl
  have h3 : (0:Nat) < 1 := by decide
  have h4 : ∀ r ∈ [("A", [some (CellVal.num 5)]), ("M", [none]), ("B", [some (CellVal.num 7)]),
      ("C", [some (CellVal.num 9)])], r.2.length = 1 := by decide
  have h5 : imputeSlice [("M", [("A", 1), ("B", 1), ("C", 2)])] "t" 1
      [("A", [some (CellVal.num 5)]), ("M", [none]), ("B", [some (CellVal.num 7)]),
       ("C", [some (CellVal.num 9)])]
      = Except.ok ([("A", [some (CellVal.num 5)]), ("M", [some (CellVal.num (19/3))]),
          ("B", [some (CellVal.num 7)]), ("C", [some (CellVal.num 9)])], []) := by
    repeat
      first
      | rfl
      | simp +decide [imputeSlice, imputeStations, processCols, processCell, scanNbrs,
          estimateIDW, numCands, candsOf, idwWeight, setCell, valAt, rowOf, nbGet,
          MIN_NEIGHBORS, IDW_POWER, List.range_succ, List.find?]
      | norm_num
  have h6 : stateBefore [("M", [("A", 1), ("B", 1), ("C", 2)])] "t" 1
      [("A", [some (CellVal.num 5)]), ("M", [none]), ("B", [some (CellVal.num 7)]),
       ("C", [some (CellVal.num 9)])] 1
      = Except.ok ([("A", [some (CellVal.num 5)]), ("M", [none]),
          ("B", [some (CellVal.num 7)]), ("C", [some (CellVal.num 9)])], []) := by
    repeat
      first
      | rfl
      | simp +decide [stateBefore, imputeStations, processCols, processCell, scanNbrs,
          estimateIDW, numCands, candsOf, idwWeight, setCell, valAt, rowOf, nbGet,
          MIN_NEIGHBORS, IDW_POWER, List.range_succ, List.find?]
      | norm_num
  have h7 : valAt [("A", [some (CellVal.num 5)]), ("M", [none]), ("B", [some (CellVal.num 7)]),
      ("C", [some (CellVal.num 9)])] "M" 0 = none := by rfl
  exact ⟨⟨h1, h2, h3, h4, h5, h6, h7⟩,
    c1_amended_cell_outcomes [("M", [("A", 1), ("B", 1), ("C", 2)])] "t" 1
      [("A", [some (CellVal.num 5)]), ("M", [none]), ("B", [some (CellVal.num 7)]),
       ("C", [some (CellVal.num 9)])] 1 0 "M"
      [("A", [some (CellVal.num 5)]), ("M", [none]), ("B", [some (CellVal.num 7)]),
       ("C", [some (CellVal.num 9)])] []
      [("A", [some (CellVal.num 5)]), ("M", [some (CellVal.num (19/3))]),
       ("B", [some (CellVal.num 7)]), ("C", [some (CellVal.num 9)])] []
      h1 h2 h3 h4 h5 h6 h7⟩
